import Mathlib

/-!
Balancer exchange scraper and option-orderbook watchdog.

A shallow embedding of `pkg/dia/scraper/exchange-scrapers/BalancerScraper.go`
and of `handleorderBook` from `cmd/exchange-scrapers/options/optioncollector.go`.

Conventions of the embedding

* Go maps with string keys are association lists (`GoMap`): `GoMap.get?` is the
  comma-ok lookup, `GoMap.get` the plain index expression (zero value when the
  key is absent), `GoMap.set` the assignment `m[k] = v`.
* Addresses and transaction hashes are represented by their hex strings, the
  form in which the scraper uses them (`.Hex()`, `.String()`).
* `error` values are represented by their message; `none` is the nil error.
* `float64` and the precision-53 `big.Float` are modelled exactly: a finite
  value is `mant * 2 ^ exp`, every operation rounds to nearest, ties to even.
  The sign bit is omitted because every quantity of the scraper is computed
  from unsigned amounts.
-/

namespace Scrapers

/-! ## Binary floating point -/

/-- The integer nearest to `n / d`, ties to the even one (`d` positive). -/
def roundHalfEven (n d : Nat) : Nat :=
  let q := n / d
  let r := n % d
  if 2 * r < d then q else if d < 2 * r then q + 1 else q + q % 2

/-- The integer nearest to `(n / d) / 2 ^ qe`, ties to the even one. -/
def roundScaled (n d : Nat) (qe : Int) : Nat :=
  match qe with
  | Int.ofNat k => roundHalfEven n (d * 2 ^ k)
  | Int.negSucc k => roundHalfEven (n * 2 ^ (k + 1)) d

/-- Binary logarithm by repeated halving; `fuel` bounds the number of halvings. -/
def log2Fuel : Nat → Nat → Nat
  | 0, _ => 0
  | fuel + 1, n => if n < 2 then 0 else log2Fuel fuel (n / 2) + 1

/-- The position of the leading bit of `n`: `2 ^ floorLog2 n ≤ n < 2 ^ (floorLog2 n + 1)`
for positive `n`. -/
def floorLog2 (n : Nat) : Nat :=
  log2Fuel n n

/-- The binary exponent of the positive rational `n / d`: the `e` with
`2 ^ e ≤ n / d < 2 ^ (e + 1)`. -/
def binExp (n d : Nat) : Int :=
  let e0 : Int := (floorLog2 n : Int) - (floorLog2 d : Int)
  match e0 with
  | Int.ofNat k => if d * 2 ^ k ≤ n then e0 else e0 - 1
  | Int.negSucc k => if d ≤ n * 2 ^ (k + 1) then e0 else e0 - 1

/-- A non-negative binary floating-point value with a 53-bit mantissa:
`finite mant exp` is `mant * 2 ^ exp`. The type carries both Go's `float64`
and a `big.Float` of precision 53 (whose exponent is not limited); for a
`big.Float` operation `nan` stands for its `ErrNaN` panic. Zero is
`finite 0 0`; a non-zero value is kept with `2 ^ 52 ≤ mant < 2 ^ 53`, except for
a subnormal `float64`, kept with `exp = -1074`. -/
inductive Float64 where
  | finite (mant : Nat) (exp : Int)
  | inf
  | nan
  deriving DecidableEq, Repr

/-- The zero value of `float64`. -/
instance : Inhabited Float64 := ⟨.finite 0 0⟩

/-- The value `n / d` rounded to 53 significant bits, nearest-even, with no
limit on the exponent: the rounding of a `big.Float` of precision 53. -/
def round53 (n d : Nat) : Float64 :=
  if n = 0 then .finite 0 0
  else
    let e := binExp n d
    let m := roundScaled n d (e - 52)
    if m = 2 ^ 53 then .finite (2 ^ 52) (e - 51) else .finite m (e - 52)

/-- The value `n / d` rounded to the nearest `float64`, ties to even: 53
significant bits, multiples of `2 ^ (-1074)` in the subnormal range, and
infinity from `2 ^ 1024` on. -/
def roundFloat64 (n d : Nat) : Float64 :=
  if n = 0 then .finite 0 0
  else
    let e := binExp n d
    let qe := max (e - 52) (-1074)
    let m := roundScaled n d qe
    if m = 0 then .finite 0 0
    else if m = 2 ^ 53 then (if 972 ≤ qe + 1 then .inf else .finite (2 ^ 52) (qe + 1))
    else if 972 ≤ qe then .inf else .finite m qe

/-- The numerator of `mant * 2 ^ exp` over `Float64.den`. -/
def Float64.num (mant : Nat) (exp : Int) : Nat :=
  mant * 2 ^ exp.toNat

/-- The denominator of `mant * 2 ^ exp`, a power of two. -/
def Float64.den (exp : Int) : Nat :=
  2 ^ (-exp).toNat

/-- The rational number a finite value stands for. -/
def Float64.toRat? : Float64 → Option ℚ
  | .finite mant exp => some ((Float64.num mant exp : ℚ) / (Float64.den exp : ℚ))
  | .inf => none
  | .nan => none

/-- The `float64` product `x * y`. -/
def Float64.mul : Float64 → Float64 → Float64
  | .nan, _ => .nan
  | _, .nan => .nan
  | .inf, .inf => .inf
  | .inf, .finite m _ => if m = 0 then .nan else .inf
  | .finite m _, .inf => if m = 0 then .nan else .inf
  | .finite mx ex, .finite my ey =>
    roundFloat64 (Float64.num mx ex * Float64.num my ey) (Float64.den ex * Float64.den ey)

/-- The `float64` quotient `x / y`. -/
def Float64.div : Float64 → Float64 → Float64
  | .nan, _ => .nan
  | _, .nan => .nan
  | .inf, .inf => .nan
  | .inf, .finite _ _ => .inf
  | .finite _ _, .inf => .finite 0 0
  | .finite mx ex, .finite my ey =>
    if my = 0 then (if mx = 0 then .nan else .inf)
    else roundFloat64 (Float64.num mx ex * Float64.den ey) (Float64.den ex * Float64.num my ey)

/-- The table `pow10tab` of package `math`: the constants `1e0` to `1e31`. -/
def pow10tab (i : Nat) : Float64 :=
  roundFloat64 (10 ^ i) 1

/-- The table `pow10postab32` of package `math`: the constants `1e0`, `1e32`,
`1e64`, up to `1e288`. -/
def pow10postab32 (i : Nat) : Float64 :=
  roundFloat64 (10 ^ (32 * i)) 1

/-- The function `math.Pow10` on a non-negative argument. -/
def Pow10 (n : Nat) : Float64 :=
  if n ≤ 308 then (pow10postab32 (n / 32)).mul (pow10tab (n % 32)) else .inf

namespace BigFloat

/-- The call `big.NewFloat(0).SetInt(x)` for a non-negative `x`: the receiver
has precision 53, so `x` is rounded to 53 bits. -/
def SetInt (x : Nat) : Float64 :=
  round53 x 1

/-- The call `new(big.Float).SetFloat64(x)`: precision 53, the value exact. -/
def SetFloat64 (x : Float64) : Float64 :=
  x

/-- The call `new(big.Float).Quo(x, y)` on operands of precision 53: the
quotient rounded to 53 bits. -/
def Quo : Float64 → Float64 → Float64
  | .nan, _ => .nan
  | _, .nan => .nan
  | .inf, .inf => .nan
  | .inf, .finite _ _ => .inf
  | .finite _ _, .inf => .finite 0 0
  | .finite mx ex, .finite my ey =>
    if my = 0 then (if mx = 0 then .nan else .inf)
    else round53 (Float64.num mx ex * Float64.den ey) (Float64.den ex * Float64.num my ey)

/-- The method `Float64` of `big.Float`: the nearest `float64`. -/
def toFloat64 : Float64 → Float64
  | .finite mant exp => roundFloat64 (Float64.num mant exp) (Float64.den exp)
  | .inf => .inf
  | .nan => .nan

end BigFloat

/-! ## Go maps keyed by strings -/

/-- Go `map[string]V` as an association list with at most one entry a key. -/
abbrev GoMap (V : Type) := List (String × V)

namespace GoMap

variable {V : Type}

/-- The comma-ok lookup `v, ok := m[k]`. -/
def get? (m : GoMap V) (k : String) : Option V :=
  List.lookup k m

/-- The index expression `m[k]`: the zero value of `V` when `k` is absent. -/
def get [Inhabited V] (m : GoMap V) (k : String) : V :=
  (m.get? k).getD default

/-- The assignment `m[k] = v`. -/
def set (m : GoMap V) (k : String) (v : V) : GoMap V :=
  (k, v) :: m.filter (fun e => e.1 != k)

/-- The builtin `len(m)`. -/
def len (m : GoMap V) : Nat :=
  m.length

/-- The keys of the map. -/
def keys (m : GoMap V) : List String :=
  m.map Prod.fst

end GoMap

/-! ## Data model (package `dia`, as used by the scraper) -/

/-- The type `dia.Asset`; `Decimals` is a `uint8`. -/
structure Asset where
  Symbol : String
  Name : String
  Address : String
  Decimals : Fin 256
  Blockchain : String
  deriving DecidableEq, Repr

/-- The zero value of `dia.Asset`. -/
instance : Inhabited Asset := ⟨⟨"", "", "", 0, ""⟩⟩

/-- The type `dia.Pair`, the field `UnderlyingPair` of an exchange pair. -/
structure Pair where
  QuoteToken : Asset
  BaseToken : Asset
  deriving DecidableEq, Repr

/-- The zero value of `dia.Pair`. -/
instance : Inhabited Pair := ⟨⟨default, default⟩⟩

/-- The type `dia.ExchangePair`. -/
structure ExchangePair where
  Symbol : String
  ForeignName : String
  Exchange : String
  Verified : Bool
  UnderlyingPair : Pair
  deriving DecidableEq, Repr

/-- The zero value of `dia.ExchangePair`. -/
instance : Inhabited ExchangePair := ⟨⟨"", "", "", false, default⟩⟩

/-- The type `BalancerPairScraper`; the back-pointer `parent` is implicit, the
engine being passed to the operations that follow it. -/
structure BalancerPairScraper where
  pair : ExchangePair
  closed : Bool
  deriving DecidableEq, Repr

/-- The zero value of `BalancerPairScraper`. -/
instance : Inhabited BalancerPairScraper := ⟨⟨default, false⟩⟩

/-- The type `BalancerScraper`: the fields the modelled operations read or
write. `shutdownClosed` and `shutdownDoneClosed` record whether the channels
`shutdown` and `shutdownDone` have been closed. -/
structure BalancerScraper where
  exchangeName : String
  run : Bool
  shutdownClosed : Bool
  shutdownDoneClosed : Bool
  error : Option String
  closed : Bool
  balancerTokensMap : GoMap Asset
  pairScrapers : GoMap BalancerPairScraper
  pools : GoMap Unit
  deriving DecidableEq, Repr

/-- The scraper that `NewBalancerScraper` allocates. -/
def NewBalancerScraper (exchangeName : String) : BalancerScraper :=
  { exchangeName := exchangeName
    run := false
    shutdownClosed := false
    shutdownDoneClosed := false
    error := none
    closed := false
    balancerTokensMap := []
    pairScrapers := []
    pools := [] }

/-! ## Pair scraper registration -/

/-- The message of the error `ScrapePair` creates on a closed engine. -/
def errClosed : String := "BalancerScraper is closed"

/-- What `ScrapePair` returns, with the engine it leaves behind. -/
structure ScrapePairResult where
  handle : Option BalancerPairScraper
  err : Option String
  scraper : BalancerScraper
  deriving DecidableEq, Repr

/-- The method `BalancerScraper.ScrapePair`. -/
def BalancerScraper.ScrapePair (scraper : BalancerScraper) (pair : ExchangePair) :
    ScrapePairResult :=
  match scraper.error with
  | some e => ⟨none, some e, scraper⟩
  | none =>
    if scraper.closed then
      ⟨none, some errClosed, scraper⟩
    else
      let pairScraper : BalancerPairScraper := { pair := pair, closed := false }
      ⟨some pairScraper, none,
        { scraper with
          pairScrapers := scraper.pairScrapers.set pair.ForeignName pairScraper }⟩

/-- The method `BalancerPairScraper.Pair`. -/
def BalancerPairScraper.Pair (pairScraper : BalancerPairScraper) : ExchangePair :=
  pairScraper.pair

/-- The method `BalancerPairScraper.Error`, reading the error of the parent
engine. -/
def BalancerPairScraper.Error (_pairScraper : BalancerPairScraper)
    (parent : BalancerScraper) : Option String :=
  parent.error

/-- A sequence of `ScrapePair` calls, each on the engine the previous one left. -/
def scrapePairs (scraper : BalancerScraper) : List ExchangePair → BalancerScraper
  | [] => scraper
  | p :: ps => scrapePairs (scraper.ScrapePair p).scraper ps

/-! ## Swaps -/

/-- The type `BalancerSwap`. -/
structure BalancerSwap where
  SellToken : String
  BuyToken : String
  SellVolume : Float64
  BuyVolume : Float64
  ID : String
  Timestamp : Int
  deriving DecidableEq, Repr

/-- The method `BalancerSwap.normalizeETH`. -/
def BalancerSwap.normalizeETH (bs : BalancerSwap) : BalancerSwap :=
  let bs := if bs.SellToken = "WETH" then { bs with SellToken := "ETH" } else bs
  if bs.BuyToken = "WETH" then { bs with BuyToken := "ETH" } else bs

/-- The function `getSwapDataBalancer`: the foreign name, volume and price of a
swap. -/
def getSwapDataBalancer (s : BalancerSwap) : String × Float64 × Float64 :=
  let volume := s.BuyVolume
  let price := s.SellVolume.div s.BuyVolume
  let foreignName := s.BuyToken ++ "-" ++ s.SellToken
  (foreignName, volume, price)

/-- The event `balancerpool.BalancerpoolLOGSWAP`, with the fields the task
reads: `TokenIn` and `TokenOut` stand for `vLog.TokenIn.Hex()` and
`vLog.TokenOut.Hex()`, `TxHash` for `vLog.Raw.TxHash.String()`, `Index` for
`vLog.Raw.Index`; the two amounts are `uint256` event fields. -/
structure LogSwap where
  TokenIn : String
  TokenOut : String
  TokenAmountIn : Nat
  TokenAmountOut : Nat
  TxHash : String
  Index : Nat
  deriving DecidableEq, Repr

/-- The type `dia.Trade`; `Time` is in seconds since the epoch. -/
structure Trade where
  Symbol : String
  Pair : String
  Price : Float64
  Volume : Float64
  Time : Int
  ForeignTradeID : String
  Source : String
  BaseToken : Asset
  QuoteToken : Asset
  VerifiedPair : Bool
  deriving DecidableEq, Repr

/-- The amount expression of `subscribeToNewSwaps`:
`Quo(NewFloat(0).SetInt(amount), SetFloat64(math.Pow10(decimals))).Float64()`. -/
def scaleAmount (amount : Nat) (decimals : Nat) : Float64 :=
  BigFloat.toFloat64
    (BigFloat.Quo (BigFloat.SetInt amount) (BigFloat.SetFloat64 (Pow10 decimals)))

/-- The swap that `subscribeToNewSwaps` builds from a log, before
`normalizeETH`; `now` is `time.Now().Unix()`. -/
def swapOfLog (scraper : BalancerScraper) (vLog : LogSwap) (now : Int) : BalancerSwap :=
  let decimalsIn := (scraper.balancerTokensMap.get vLog.TokenIn).Decimals.val
  let decimalsOut := (scraper.balancerTokensMap.get vLog.TokenOut).Decimals.val
  let amountIn := scaleAmount vLog.TokenAmountIn decimalsIn
  let amountOut := scaleAmount vLog.TokenAmountOut decimalsOut
  { SellToken := (scraper.balancerTokensMap.get vLog.TokenIn).Symbol
    BuyToken := (scraper.balancerTokensMap.get vLog.TokenOut).Symbol
    SellVolume := amountIn
    BuyVolume := amountOut
    ID := vLog.TxHash ++ "-" ++ toString vLog.Index
    Timestamp := now }

/-! ## The per-pool subscription task -/

/-- What the `select` of the per-pool task receives: a value from `sub.Err()`
or a log from `sink`, the latter with the clock reading taken while handling. -/
inductive SwapSubEvent where
  | err (e : Option String)
  | log (vLog : LogSwap) (now : Int)
  deriving DecidableEq, Repr

/-- The local state of the goroutine started by `subscribeToNewSwaps`:
`returned` holds once the goroutine has left its loop, at which point the
deferred `sub.Unsubscribe()` has run. -/
structure SwapTask where
  poolToSub : String
  subscribed : Bool
  returned : Bool
  deriving DecidableEq, Repr

/-- The sends of a task: trades on `chanTrades`, strings on `resubscribe`. -/
structure TaskOutput where
  trades : List Trade
  resubscribe : List String
  deriving DecidableEq, Repr

/-- The goroutine of `subscribeToNewSwaps(poolToSub)` at its first loop test. -/
def SwapTask.start (scraper : BalancerScraper) (poolToSub : String) : SwapTask :=
  { poolToSub := poolToSub, subscribed := true, returned := !scraper.run }

/-- One iteration of the loop of `subscribeToNewSwaps`: the `select` receives
`ev`, the chosen case runs against the engine `scraper`, and the loop test
`scraper.run && subscribed` is evaluated again. A task that has returned
receives nothing. -/
def SwapTask.iterate (scraper : BalancerScraper) (t : SwapTask) (ev : SwapSubEvent) :
    SwapTask × TaskOutput :=
  if t.returned then (t, ⟨[], []⟩)
  else
    match ev with
    | .err _ =>
      ({ t with subscribed := false, returned := true },
        ⟨[], if scraper.run then [t.poolToSub] else []⟩)
    | .log vLog now =>
      let swap := (swapOfLog scraper vLog now).normalizeETH
      let pair := swap.BuyToken ++ "-" ++ swap.SellToken
      match scraper.pairScrapers.get? pair with
      | none => ({ t with returned := true }, ⟨[], []⟩)
      | some pairScraper =>
        let (_, volume, price) := getSwapDataBalancer swap
        let trade : Trade :=
          { Symbol := pairScraper.pair.Symbol
            Pair := pair
            Price := price
            Volume := volume
            Time := swap.Timestamp
            ForeignTradeID := swap.ID
            Source := scraper.exchangeName
            BaseToken := scraper.balancerTokensMap.get vLog.TokenIn
            QuoteToken := scraper.balancerTokensMap.get vLog.TokenOut
            VerifiedPair := true }
        ({ t with returned := !(scraper.run && t.subscribed) }, ⟨[trade], []⟩)

/-- The task run over the events its subscription delivers, the engine being
`scraper` throughout: the final task state and everything it sent. -/
def SwapTask.runFrom (scraper : BalancerScraper) :
    SwapTask → List SwapSubEvent → SwapTask × TaskOutput
  | t, [] => (t, ⟨[], []⟩)
  | t, ev :: evs =>
    let r := SwapTask.iterate scraper t ev
    let rest := SwapTask.runFrom scraper r.1 evs
    (rest.1, ⟨r.2.trades ++ rest.2.trades, r.2.resubscribe ++ rest.2.resubscribe⟩)

/-- The goroutine of `subscribeToNewSwaps(poolToSub)` run over a sequence of
events. -/
def subscribeToNewSwaps (scraper : BalancerScraper) (poolToSub : String)
    (evs : List SwapSubEvent) : SwapTask × TaskOutput :=
  SwapTask.runFrom scraper (SwapTask.start scraper poolToSub) evs

/-! ## Main loop, cleanup and Close -/

/-- The message of the error `mainLoop` sets when no pair was registered. -/
def errNoPairs : String := "no pairs to scrape provided"

/-- The message of the error `mainLoop` sets before it cleans up. -/
def errTerminated : String := "main loop terminated by Close()"

/-- The method `BalancerScraper.cleanup`: `close(shutdownDone)` is recorded in
`shutdownDoneClosed`. -/
def BalancerScraper.cleanup (scraper : BalancerScraper) (err : Option String) :
    BalancerScraper :=
  let scraper := if err.isSome then { scraper with error := err } else scraper
  { scraper with closed := true, shutdownDoneClosed := true }

/-- Lines 110 to 121 of `mainLoop`: the running flag is set, the token map is
replaced by the result `tokens` of `getAllTokensMap`, and every pool address of
the factory log, `logged`, is put into the pool set. -/
def mainLoop.init (scraper : BalancerScraper) (tokens : GoMap Asset)
    (logged : List String) : BalancerScraper :=
  { scraper with
    run := true
    balancerTokensMap := tokens
    pools := logged.foldl (fun pools pool => pools.set pool ()) scraper.pools }

/-- Lines 145 to 150 of `mainLoop`: the check for registered pairs. -/
def mainLoop.check (scraper : BalancerScraper) : BalancerScraper :=
  if scraper.run then
    if scraper.pairScrapers.len = 0 then { scraper with error := some errNoPairs }
    else scraper
  else scraper

/-- Lines 154 to 156 of `mainLoop`, after the second sleep. -/
def mainLoop.setError (scraper : BalancerScraper) : BalancerScraper :=
  if scraper.error = none then { scraper with error := some errTerminated } else scraper

/-- The method `BalancerScraper.Close` up to and including `close(scraper.shutdown)`;
`none` is the panic of closing a closed channel. After this part `Close` waits
on `shutdownDone`. -/
def BalancerScraper.closeCall (scraper : BalancerScraper) : Option BalancerScraper :=
  let scraper :=
    { scraper with
      run := false
      pairScrapers :=
        scraper.pairScrapers.map
          (fun (e : String × BalancerPairScraper) => (e.1, { e.2 with closed := true })) }
  if scraper.shutdownClosed then none
  else some { scraper with shutdownClosed := true }

/-- Where the goroutine of `mainLoop` stands; `notSpawned` is the engine
created with `scrape = false`. -/
inductive MainPc where
  | notSpawned
  | sleeping
  | subscribed
  | checked
  | errorSet
  | done
  deriving DecidableEq, Repr

/-- Where the caller of `Close` stands. -/
inductive ClosePc where
  | notCalled
  | waiting
  | returned
  deriving DecidableEq, Repr

/-- An engine together with the control state of its main loop and of the
caller of `Close`. -/
structure System where
  scraper : BalancerScraper
  mainPc : MainPc
  closePc : ClosePc
  deriving DecidableEq, Repr

/-- The atomic steps of the engine's main goroutine and of its clients. -/
inductive Action where
  | mainInit (tokens : GoMap Asset) (logged : List String)
  | mainCheck
  | mainSetError
  | mainCleanup
  | closeCall
  | closeReturn
  | scrapePair (pair : ExchangePair)
  deriving DecidableEq, Repr

/-- The system right after `NewBalancerScraper(exchange, scrape)`. -/
def System.init (exchangeName : String) (scrape : Bool) : System :=
  { scraper := NewBalancerScraper exchangeName
    mainPc := if scrape then .sleeping else .notSpawned
    closePc := .notCalled }

/-- One atomic step; `none` when the step cannot be taken in this state (or
panics). `closeReturn` is the receive `<-scraper.shutdownDone`, possible once
the channel is closed. -/
def System.step (sys : System) : Action → Option System
  | .mainInit tokens logged =>
    if sys.mainPc = .sleeping then
      some { sys with scraper := mainLoop.init sys.scraper tokens logged, mainPc := .subscribed }
    else none
  | .mainCheck =>
    if sys.mainPc = .subscribed then
      some { sys with scraper := mainLoop.check sys.scraper, mainPc := .checked }
    else none
  | .mainSetError =>
    if sys.mainPc = .checked then
      some { sys with scraper := mainLoop.setError sys.scraper, mainPc := .errorSet }
    else none
  | .mainCleanup =>
    if sys.mainPc = .errorSet then
      some { sys with scraper := sys.scraper.cleanup none, mainPc := .done }
    else none
  | .closeCall =>
    if sys.closePc = .notCalled then
      (sys.scraper.closeCall).map (fun scraper => { sys with scraper := scraper, closePc := .waiting })
    else none
  | .closeReturn =>
    if sys.closePc = .waiting ∧ sys.scraper.shutdownDoneClosed then
      some { sys with closePc := .returned }
    else none
  | .scrapePair pair =>
    some { sys with scraper := (sys.scraper.ScrapePair pair).scraper }

/-- A sequence of atomic steps. -/
def System.run (sys : System) : List Action → Option System
  | [] => some sys
  | a :: as => (sys.step a).bind (fun sys => System.run sys as)

/-! ## Enumeration of the available pairs -/

/-- The loop variables of `FetchAvailablePairs`: the variable `pair` of the
current pool and the result `pairs`. -/
abbrev FetchState := ExchangePair × List ExchangePair

/-- The inner loop `for j < len(tokens)` of `FetchAvailablePairs` at index `i`,
with `resolve` for `ethhelper.ETHAddressToAsset`; `none` when `fuel`
iterations did not finish it. -/
def FetchAvailablePairs.inner (resolve : String → Option Asset) (tokens : List String)
    (i : Nat) : Nat → Nat → FetchState → Option FetchState
  | 0, _, _ => none
  | fuel + 1, j, (pair, pairs) =>
    if j < tokens.length then
      match resolve (tokens.getD i "") with
      | none => FetchAvailablePairs.inner resolve tokens i fuel j (pair, pairs)
      | some asset0 =>
        match resolve (tokens.getD j "") with
        | none => FetchAvailablePairs.inner resolve tokens i fuel j (pair, pairs)
        | some asset1 =>
          let pair : ExchangePair :=
            { pair with
              UnderlyingPair := { QuoteToken := asset0, BaseToken := asset1 }
              ForeignName := asset0.Symbol ++ "-" ++ asset1.Symbol
              Verified := true
              Exchange := "Balancer"
              Symbol := asset0.Symbol }
          FetchAvailablePairs.inner resolve tokens i fuel (j + 1) (pair, pairs ++ [pair])
    else some (pair, pairs)

/-- The loop `for i := 0; i < len(tokens); i++` of `FetchAvailablePairs`, from
index `i` with `todo` indices left; every inner loop gets `fuel` iterations. -/
def FetchAvailablePairs.outer (resolve : String → Option Asset) (tokens : List String)
    (fuel : Nat) : Nat → Nat → FetchState → Option FetchState
  | 0, _, st => some st
  | todo + 1, i, st =>
    (FetchAvailablePairs.inner resolve tokens i fuel (i + 1) st).bind
      (FetchAvailablePairs.outer resolve tokens fuel todo (i + 1))

/-- The loop `for it.Next()` of `FetchAvailablePairs` over the token lists of
the logged pools. -/
def FetchAvailablePairs.pools (resolve : String → Option Asset) (fuel : Nat) :
    List (List String) → List ExchangePair → Option (List ExchangePair)
  | [], pairs => some pairs
  | tokens :: rest, pairs =>
    if tokens.length < 2 then FetchAvailablePairs.pools resolve fuel rest pairs
    else
      (FetchAvailablePairs.outer resolve tokens fuel tokens.length 0 (default, pairs)).bind
        (fun st => FetchAvailablePairs.pools resolve fuel rest st.2)

/-- The method `BalancerScraper.FetchAvailablePairs`: `poolTokens` lists, pool
by pool in log order, what `GetCurrentTokens` returns; `none` when an inner
loop did not finish within `fuel` iterations. -/
def FetchAvailablePairs (resolve : String → Option Asset) (poolTokens : List (List String))
    (fuel : Nat) : Option (List ExchangePair) :=
  FetchAvailablePairs.pools resolve fuel poolTokens []

/-! ## The watchdog loop of the option collector -/

/-- The constant `watchdogDelay`, in seconds. -/
def watchdogDelay : Int := 60 * 60

/-- The constant `time.Second`, in nanoseconds. -/
def Second : Int := 1000000000

/-- The largest `time.Duration`. -/
def maxDuration : Int := 2 ^ 63 - 1

/-- The smallest `time.Duration`. -/
def minDuration : Int := -(2 ^ 63)

/-- The function `time.Since` on monotonic clock readings in nanoseconds: the
difference `now - t`, saturated to the range of `time.Duration`. -/
def Since (now t : Int) : Int :=
  max minDuration (min maxDuration (now - t))

/-- What the `select` of `handleorderBook` receives: a tick of the ticker, a
datum from the channel, or the closure of the channel. `now` is the clock
reading taken while handling; `saveErr` is what
`SaveOptionOrderbookDatumInflux` returns. -/
inductive SinkEvent where
  | tick (now : Int)
  | datum (now : Int) (saveErr : Option String)
  | closed
  deriving DecidableEq, Repr

/-- How the loop of `handleorderBook` stands. -/
inductive SinkStatus where
  | selecting
  | panicked (msg : String)
  | returned
  deriving DecidableEq, Repr

/-- The state of `handleorderBook`: its local `lastTradeTime`, the counter of
the wait group it was given, and the status of the loop. -/
structure SinkState where
  lastTradeTime : Int
  wg : Int
  status : SinkStatus
  deriving DecidableEq, Repr

/-- One iteration of the loop of `handleorderBook`. -/
def SinkState.iterate (s : SinkState) (ev : SinkEvent) : SinkState :=
  match s.status with
  | .selecting =>
    match ev with
    | .tick now =>
      let duration := Since now s.lastTradeTime
      if duration > watchdogDelay * Second then { s with status := .panicked "frozen? " }
      else s
    | .datum now _ => { s with lastTradeTime := now }
    | .closed =>
      if s.wg - 1 < 0 then
        { s with wg := s.wg - 1, status := .panicked "sync: negative WaitGroup counter" }
      else { s with wg := s.wg - 1, status := .returned }
  | _ => s

/-- The function `handleorderBook` entered at clock reading `start` with a wait
group whose counter is `wg`, run over a sequence of events. -/
def handleorderBook (start : Int) (wg : Int) (evs : List SinkEvent) : SinkState :=
  evs.foldl SinkState.iterate { lastTradeTime := start, wg := wg, status := .selecting }

/-- The sink as `main` starts it: `wg.Add(1)`, then `go handleorderBook(ds, c, &wg)`. -/
def mainSink (start : Int) (evs : List SinkEvent) : SinkState :=
  handleorderBook start 1 evs

/-- The clock reading of the most recent datum among `evs`, or `start` when
there is none. -/
def lastReceive (start : Int) : List SinkEvent → Int
  | [] => start
  | .datum now _ :: evs => lastReceive now evs
  | _ :: evs => lastReceive start evs

/-! ## The factory subscription task -/

/-- What the `select` of the factory task receives: a value from
`subPool.Err()` or a creation event from `sinkPool`, the latter given by
`vLog.Pool.Hex()`. -/
inductive NewPoolsEvent where
  | err (e : Option String)
  | log (pool : String)
  deriving DecidableEq, Repr

/-- The local state of the goroutine started by `subscribeToNewPools`;
`returned` holds once the goroutine has left its loop. -/
structure NewPoolsTask where
  subscribed : Bool
  returned : Bool
  deriving DecidableEq, Repr

/-- What an iteration of the factory task does besides updating the pool set:
the pools it calls `subscribeToNewSwaps` on, and its sends on `resubscribe`. -/
structure NewPoolsOutput where
  opened : List String
  resubscribe : List String
  deriving DecidableEq, Repr

/-- The goroutine of `subscribeToNewPools` at its first loop test. -/
def NewPoolsTask.start (scraper : BalancerScraper) : NewPoolsTask :=
  { subscribed := true, returned := !scraper.run }

/-- One iteration of the loop of `subscribeToNewPools`: the `select` receives
`ev`, the chosen case runs against the engine `scraper`, and the loop test
`scraper.run && subscribed` is evaluated again. A task that has returned
receives nothing. -/
def NewPoolsTask.iterate (scraper : BalancerScraper) (t : NewPoolsTask)
    (ev : NewPoolsEvent) : NewPoolsTask × BalancerScraper × NewPoolsOutput :=
  if t.returned then (t, scraper, ⟨[], []⟩)
  else
    match ev with
    | .err _ =>
      ({ t with subscribed := false, returned := true }, scraper,
        ⟨[], if scraper.run then ["NEW_POOLS"] else []⟩)
    | .log pool =>
      match scraper.pools.get? pool with
      | some _ => ({ t with returned := !(scraper.run && t.subscribed) }, scraper, ⟨[], []⟩)
      | none =>
        ({ t with returned := !(scraper.run && t.subscribed) },
          { scraper with pools := scraper.pools.set pool () }, ⟨[pool], []⟩)

/-! ## Subscription tasks and dispatcher together -/

/-- A live subscription: the swap events of a pool, or the creation events of
the factory. -/
inductive Subscription where
  | swaps (pool : String)
  | newPools
  deriving DecidableEq, Repr

/-- Where the dispatcher goroutine of `mainLoop` (lines 123 to 143) stands: at
the loop test, blocked in the receive from `resubscribe`, holding a received
message before the inner test of `scraper.run`, or past the loop. -/
inductive DispatcherPc where
  | atGuard
  | receiving
  | handling (pool : String)
  | exited
  deriving DecidableEq, Repr

/-- The subscription manager: the engine, the goroutines of
`subscribeToNewSwaps` and of `subscribeToNewPools` started so far, the sends on
the unbuffered channel `resubscribe` that wait for the dispatcher (oldest
first), and the dispatcher. A task whose send waits has nothing left to do but
to complete the send and leave its loop; it is kept as returned, its message in
`pending`. -/
structure Manager where
  scraper : BalancerScraper
  swapTasks : List SwapTask
  poolTasks : List NewPoolsTask
  pending : List String
  dispatcher : DispatcherPc
  deriving DecidableEq, Repr

/-- What a step of the manager lets one observe: a subscription delivered an
error to its task, a task executed a send on `resubscribe`, the dispatcher
called `subscribeToNewSwaps` or `subscribeToNewPools`, the factory task called
`subscribeToNewSwaps` for a new pool, a task sent a trade. -/
inductive Obs where
  | failed (sub : Subscription)
  | sent (msg : String)
  | reopened (sub : Subscription)
  | opened (pool : String)
  | trade (tr : Trade)
  deriving DecidableEq, Repr

/-- The atomic steps of the manager: a subscription delivers an event to the
swap task or factory task at a position of the task list, the dispatcher
advances by one step, `Close` clears the running flag (lines 547 to 550). -/
inductive ManagerAction where
  | swapEvent (i : Nat) (ev : SwapSubEvent)
  | poolEvent (i : Nat) (ev : NewPoolsEvent)
  | dispatcher
  | clearRun
  deriving DecidableEq, Repr

/-- The manager once `performSubscriptions` has run and the dispatcher has been
started: one swap task for every pool of the pool set, one factory task. -/
def Manager.init (scraper : BalancerScraper) : Manager :=
  { scraper := scraper
    swapTasks := scraper.pools.keys.map (SwapTask.start scraper)
    poolTasks := [NewPoolsTask.start scraper]
    pending := []
    dispatcher := .atGuard }

/-- The subscription the dispatcher opens for a message: the branch on
`pool == "NEW_POOLS"` of lines 128 to 140. -/
def dispatchTarget (pool : String) : Subscription :=
  if pool = "NEW_POOLS" then .newPools else .swaps pool

/-- One step of the dispatcher goroutine. -/
def Manager.dispatch (m : Manager) : Manager × List Obs :=
  match m.dispatcher with
  | .atGuard =>
    ({ m with dispatcher := if m.scraper.run then .receiving else .exited }, [])
  | .receiving =>
    match m.pending with
    | [] => (m, [])
    | pool :: rest => ({ m with pending := rest, dispatcher := .handling pool }, [])
  | .handling pool =>
    if m.scraper.run then
      if pool = "NEW_POOLS" then
        ({ m with
            poolTasks := m.poolTasks ++ [NewPoolsTask.start m.scraper]
            dispatcher := .atGuard },
          [.reopened .newPools])
      else
        ({ m with
            swapTasks := m.swapTasks ++ [SwapTask.start m.scraper pool]
            dispatcher := .atGuard },
          [.reopened (.swaps pool)])
    else ({ m with dispatcher := .atGuard }, [])
  | .exited => (m, [])

/-- One atomic step of the manager and what it lets one observe. A step that
cannot be taken (no task at the position, a task that has returned, a
dispatcher blocked or gone) leaves the manager as it is. -/
def Manager.step (m : Manager) : ManagerAction → Manager × List Obs
  | .swapEvent i ev =>
    match m.swapTasks.get? i with
    | none => (m, [])
    | some t =>
      if t.returned then (m, [])
      else
        let r := SwapTask.iterate m.scraper t ev
        ({ m with
            swapTasks := m.swapTasks.set i r.1
            pending := m.pending ++ r.2.resubscribe },
          (match ev with
            | .err _ => [Obs.failed (.swaps t.poolToSub)]
            | .log _ _ => []) ++
          r.2.resubscribe.map Obs.sent ++ r.2.trades.map Obs.trade)
  | .poolEvent i ev =>
    match m.poolTasks.get? i with
    | none => (m, [])
    | some t =>
      if t.returned then (m, [])
      else
        let r := NewPoolsTask.iterate m.scraper t ev
        ({ m with
            scraper := r.2.1
            poolTasks := m.poolTasks.set i r.1
            swapTasks := m.swapTasks ++ r.2.2.opened.map (SwapTask.start r.2.1)
            pending := m.pending ++ r.2.2.resubscribe },
          (match ev with
            | .err _ => [Obs.failed .newPools]
            | .log _ => []) ++
          r.2.2.resubscribe.map Obs.sent ++ r.2.2.opened.map Obs.opened)
  | .dispatcher => m.dispatch
  | .clearRun =>
    ({ m with
        scraper :=
          { m.scraper with
            run := false
            pairScrapers :=
              m.scraper.pairScrapers.map
                (fun (e : String × BalancerPairScraper) => (e.1, { e.2 with closed := true })) } },
      [])

/-- A sequence of atomic steps: the final manager and everything observed. -/
def Manager.run (m : Manager) : List ManagerAction → Manager × List Obs
  | [] => (m, [])
  | a :: as =>
    let r := m.step a
    let rest := Manager.run r.1 as
    (rest.1, r.2 ++ rest.2)

/-- The messages on their way through `resubscribe`: the sends that wait, and
the message the dispatcher holds. -/
def Manager.inflight (m : Manager) : List String :=
  m.pending ++
    (match m.dispatcher with
      | .handling pool => [pool]
      | _ => [])

/-- The number of dispatcher steps after which a running dispatcher has
handled every message that is on its way. -/
def Manager.backlog (m : Manager) : Nat :=
  3 * m.pending.length +
    (match m.dispatcher with
      | .handling _ => 2
      | .atGuard => 1
      | _ => 0)

/-- The dispatcher left to run until it has handled every message on its
way: `backlog` steps of the dispatcher. -/
def Manager.drain (m : Manager) : Manager × List Obs :=
  m.run (List.replicate m.backlog .dispatcher)

/-! ## Example inputs -/

/-- The pair `DAI-ETH` on Balancer. -/
def pairDaiEth : ExchangePair :=
  { Symbol := "DAI", ForeignName := "DAI-ETH", Exchange := "Balancer", Verified := true,
    UnderlyingPair := default }

/-- The pair `B-A` on Balancer. -/
def pairBA : ExchangePair :=
  { Symbol := "B", ForeignName := "B-A", Exchange := "Balancer", Verified := true,
    UnderlyingPair := default }

/-- Token A of the first end-to-end scenario: 6 decimals. -/
def assetA : Asset :=
  { Symbol := "A", Name := "Token A", Address := "0xA", Decimals := 6, Blockchain := "Ethereum" }

/-- Token B of the first end-to-end scenario: 18 decimals. -/
def assetB : Asset :=
  { Symbol := "B", Name := "Token B", Address := "0xB", Decimals := 18, Blockchain := "Ethereum" }

/-- A running engine whose registry holds A and B and whose table holds `B-A`. -/
def engineBA : BalancerScraper :=
  ({ NewBalancerScraper "Balancer" with
      run := true
      balancerTokensMap := [("0xA", assetA), ("0xB", assetB)] }.ScrapePair pairBA).scraper

/-- The raw swap of the first end-to-end scenario: 1_000_000 of A in,
2 * 10^18 of B out. -/
def logAB : LogSwap :=
  { TokenIn := "0xA", TokenOut := "0xB", TokenAmountIn := 1000000,
    TokenAmountOut := 2000000000000000000, TxHash := "0x5eed", Index := 7 }

/-- Token X, 18 decimals. -/
def assetX : Asset :=
  { Symbol := "X", Name := "Token X", Address := "0xX", Decimals := 18, Blockchain := "Ethereum" }

/-- Token Y, 18 decimals. -/
def assetY : Asset :=
  { Symbol := "Y", Name := "Token Y", Address := "0xY", Decimals := 18, Blockchain := "Ethereum" }

/-- A running engine whose registry holds A, B, X and Y and whose table holds
only `B-A`. -/
def engineXY : BalancerScraper :=
  ({ NewBalancerScraper "Balancer" with
      run := true
      balancerTokensMap := [("0xA", assetA), ("0xB", assetB), ("0xX", assetX), ("0xY", assetY)]
    }.ScrapePair pairBA).scraper

/-- A swap of 3 * 10^18 of X for 5 * 10^18 of Y. -/
def logXY : LogSwap :=
  { TokenIn := "0xX", TokenOut := "0xY", TokenAmountIn := 3000000000000000000,
    TokenAmountOut := 5000000000000000000, TxHash := "0xfeed", Index := 3 }

/-- A running engine whose registry holds only A and whose table holds the
key `-A`. -/
def engineDashA : BalancerScraper :=
  ({ NewBalancerScraper "Balancer" with
      run := true
      balancerTokensMap := [("0xA", assetA)]
    }.ScrapePair { pairBA with ForeignName := "-A", Symbol := "" }).scraper

/-- A swap of 1_000_000 of A for 5 units of the token at `0xY`. -/
def logAY : LogSwap :=
  { TokenIn := "0xA", TokenOut := "0xY", TokenAmountIn := 1000000,
    TokenAmountOut := 5, TxHash := "0xbeef", Index := 1 }

/-- The states of the system considered in the analysis of `Close`: the
terminal error is nil or one of the two errors `mainLoop` sets, it is set once
the main loop is past line 156, `shutdownDone` is closed only when the main
loop has run `cleanup`, which sets `closed`, and `Close` returns only when
`shutdownDone` is closed. -/
def System.Inv (sys : System) : Prop :=
  (sys.scraper.error = none ∨ sys.scraper.error = some errNoPairs ∨
    sys.scraper.error = some errTerminated) ∧
  ((sys.mainPc = .errorSet ∨ sys.mainPc = .done) → sys.scraper.error ≠ none) ∧
  (sys.scraper.shutdownDoneClosed = true → sys.mainPc = .done) ∧
  (sys.scraper.shutdownDoneClosed = true → sys.scraper.closed = true) ∧
  (sys.closePc = .returned → sys.scraper.shutdownDoneClosed = true)

/-- A run in which `B-A` is registered, the main loop starts and checks,
`Close` is called, the main loop sets its error and cleans up, and `Close`
returns. -/
def traceRegisterThenClose : List Action :=
  [.scrapePair pairBA, .mainInit [] [], .mainCheck, .closeCall, .mainSetError,
    .mainCleanup, .closeReturn]

/-- A run in which no pair is registered: the main loop starts, checks, sets its
error and cleans up, then `Close` is called and returns. -/
def traceCloseNoPairs : List Action :=
  [.mainInit [] [], .mainCheck, .mainSetError, .mainCleanup, .closeCall, .closeReturn]

/-- The state the run `traceCloseNoPairs` ends in. -/
def sysClosedNoPairs : System :=
  ((System.init "Balancer" true).run traceCloseNoPairs).getD (System.init "Balancer" true)

/-- An asset resolver that knows the token at `0xA` and fails on every other
address. -/
def resolveOnlyA : String → Option Asset :=
  fun address => if address = "0xA" then some assetA else none

/-- An asset resolver that knows the tokens at `0xA`, `0xB` and `0xX`. -/
def resolveABX : String → Option Asset :=
  fun address =>
    if address = "0xA" then some assetA
    else if address = "0xB" then some assetB
    else if address = "0xX" then some assetX
    else none

/-- A running engine as `engineBA`, with the pool `0xPool` in its pool set. -/
def enginePool : BalancerScraper :=
  { engineBA with pools := [("0xPool", ())] }

/-- The fourth end-to-end scenario: the subscription of pool `0xPool` fails,
the dispatcher takes its three steps, and the swap of A for B arrives on the
reopened subscription (the second swap task). -/
def traceFailureRecovery : List ManagerAction :=
  [.swapEvent 0 (.err (some "connection reset")), .dispatcher, .dispatcher, .dispatcher,
    .swapEvent 1 (.log logAB 1600000000)]

/-! ## Facts about Go maps -/

namespace GoMap

variable {V : Type}

theorem get?_set_self (m : GoMap V) (k : String) (v : V) : (m.set k v).get? k = some v := by
  simp [get?, set, List.lookup]

theorem get?_filter_ne (m : GoMap V) (k k' : String) (h : k' ≠ k) :
    get? (m.filter (fun e => e.1 != k)) k' = get? m k' := by
  induction m with
  | nil => rfl
  | cons e m ih =>
    obtain ⟨a, b⟩ := e
    by_cases hak : a = k
    · subst hak
      have hne : (k' == a) = false := by simpa using h
      simp only [get?] at ih
      simp [get?, List.filter, List.lookup, hne, ih]
    · have hf : ((a, b).1 != k) = true := by simpa using hak
      simp only [get?] at ih
      simp only [get?, List.filter, hf, List.lookup]
      cases hka : k' == a with
      | true => rfl
      | false => exact ih

theorem get?_set_other (m : GoMap V) (k k' : String) (v : V) (h : k' ≠ k) :
    (m.set k v).get? k' = m.get? k' := by
  have hne : (k' == k) = false := by simpa using h
  have := get?_filter_ne m k k' h
  simp only [get?] at this
  simp [get?, set, List.lookup, hne, this]

theorem keys_set (m : GoMap V) (k : String) (v : V) :
    (m.set k v).keys = k :: m.keys.filter (fun a => a != k) := by
  simp [keys, set, List.filter_map, Function.comp_def]

theorem nodup_keys_set (m : GoMap V) (k : String) (v : V) (h : m.keys.Nodup) :
    (m.set k v).keys.Nodup := by
  rw [keys_set]
  refine List.nodup_cons.mpr ⟨?_, h.filter _⟩
  simp [List.mem_filter]

theorem toFinset_keys_set (m : GoMap V) (k : String) (v : V) :
    (m.set k v).keys.toFinset = insert k m.keys.toFinset := by
  rw [keys_set]
  ext a
  simp only [List.toFinset_cons, Finset.mem_insert, List.mem_toFinset, List.mem_filter]
  by_cases hak : a = k <;> simp [hak]

theorem len_eq_card (m : GoMap V) (h : m.keys.Nodup) : m.len = m.keys.toFinset.card := by
  rw [List.toFinset_card_of_nodup h]
  simp [len, keys]

end GoMap

/-! ## Pair scraper registration: facts -/

theorem scrapePairs_fields (ps : List ExchangePair) (s : BalancerScraper)
    (he : s.error = none) (hc : s.closed = false) :
    (scrapePairs s ps).error = none ∧ (scrapePairs s ps).closed = false := by
  induction ps generalizing s with
  | nil => exact ⟨he, hc⟩
  | cons p ps ih =>
    simp only [scrapePairs]
    apply ih
    · simp [BalancerScraper.ScrapePair, he, hc]
    · simp [BalancerScraper.ScrapePair, he, hc]

theorem scrapePairs_keys (ps : List ExchangePair) (s : BalancerScraper)
    (he : s.error = none) (hc : s.closed = false) (hn : s.pairScrapers.keys.Nodup) :
    (scrapePairs s ps).pairScrapers.keys.Nodup ∧
    (scrapePairs s ps).pairScrapers.keys.toFinset =
      s.pairScrapers.keys.toFinset ∪ (ps.map (fun p => p.ForeignName)).toFinset := by
  induction ps generalizing s with
  | nil => simp [scrapePairs, hn]
  | cons p ps ih =>
    have hs : (s.ScrapePair p).scraper =
        { s with pairScrapers := s.pairScrapers.set p.ForeignName ⟨p, false⟩ } := by
      simp [BalancerScraper.ScrapePair, he, hc]
    have := ih (s.ScrapePair p).scraper (by simp [hs, he]) (by simp [hs, hc])
      (by rw [hs]; exact GoMap.nodup_keys_set _ _ _ hn)
    refine ⟨this.1, ?_⟩
    simp only [scrapePairs]
    rw [this.2, hs]
    simp only [GoMap.toFinset_keys_set, List.map_cons, List.toFinset_cons]
    ext a
    simp only [Finset.mem_union, Finset.mem_insert, List.mem_toFinset]
    tauto

/-! ## Swaps: facts -/

theorem normalizeETH_fields (s : BalancerSwap) :
    s.normalizeETH.BuyToken = (if s.BuyToken = "WETH" then "ETH" else s.BuyToken) ∧
    s.normalizeETH.SellToken = (if s.SellToken = "WETH" then "ETH" else s.SellToken) ∧
    s.normalizeETH.SellVolume = s.SellVolume ∧
    s.normalizeETH.BuyVolume = s.BuyVolume ∧
    s.normalizeETH.ID = s.ID ∧
    s.normalizeETH.Timestamp = s.Timestamp := by
  by_cases h1 : s.SellToken = "WETH" <;> by_cases h2 : s.BuyToken = "WETH" <;>
    simp [BalancerSwap.normalizeETH, h1, h2]

/-! ## The per-pool task: facts -/

theorem SwapTask.runFrom_returned (scraper : BalancerScraper) (t : SwapTask)
    (evs : List SwapSubEvent) (h : t.returned = true) :
    SwapTask.runFrom scraper t evs = (t, ⟨[], []⟩) := by
  induction evs with
  | nil => rfl
  | cons ev evs ih =>
    have hit : SwapTask.iterate scraper t ev = (t, ⟨[], []⟩) := by
      simp [SwapTask.iterate, h]
    simp [SwapTask.runFrom, hit, ih]

/-! ## Claims -/

/-- C2: on an engine without terminal error that is not closed, `ScrapePair(p)`
returns a nil error and a handle whose `Pair()` is `p`; afterwards the table
maps `p.ForeignName` to that handle and every other key as before; and a
sequence of such calls on an empty table leaves as many entries as there are
distinct foreign names among the registered pairs. -/
theorem ScrapePair_registers (s : BalancerScraper) (p : ExchangePair)
    (he : s.error = none) (hc : s.closed = false) :
    (s.ScrapePair p).err = none ∧
    (∃ h, (s.ScrapePair p).handle = some h ∧ h.Pair = p ∧
      (s.ScrapePair p).scraper.pairScrapers.get? p.ForeignName = some h) ∧
    (∀ k, k ≠ p.ForeignName →
      (s.ScrapePair p).scraper.pairScrapers.get? k = s.pairScrapers.get? k) ∧
    (∀ ps : List ExchangePair, s.pairScrapers = [] →
      (scrapePairs s ps).error = none ∧ (scrapePairs s ps).closed = false ∧
      (scrapePairs s ps).pairScrapers.len = ((ps.map (fun q => q.ForeignName)).dedup).length ∧
      (scrapePairs s (p :: p :: ps)).pairScrapers.len = (scrapePairs s (p :: ps)).pairScrapers.len) := by
  have hs : s.ScrapePair p =
      ⟨some ⟨p, false⟩, none, { s with pairScrapers := s.pairScrapers.set p.ForeignName ⟨p, false⟩ }⟩ := by
    simp [BalancerScraper.ScrapePair, he, hc]
  have hlen : ∀ qs : List ExchangePair, s.pairScrapers = [] →
      (scrapePairs s qs).pairScrapers.len = ((qs.map (fun q => q.ForeignName)).dedup).length := by
    intro qs hempty
    have hk := scrapePairs_keys qs s he hc (by simp [hempty, GoMap.keys])
    rw [GoMap.len_eq_card _ hk.1, hk.2, hempty]
    simp [GoMap.keys, List.card_toFinset]
  refine ⟨by rw [hs], ⟨⟨p, false⟩, by rw [hs], rfl, ?_⟩, ?_, ?_⟩
  · rw [hs]; exact GoMap.get?_set_self _ _ _
  · intro k hk
    rw [hs]; exact GoMap.get?_set_other _ _ _ _ hk
  · intro ps hempty
    refine ⟨(scrapePairs_fields ps s he hc).1, (scrapePairs_fields ps s he hc).2, hlen ps hempty, ?_⟩
    rw [hlen _ hempty, hlen _ hempty]
    simp [List.dedup_cons_of_mem]

/-- C2 at a new engine: registering `DAI-ETH` succeeds, and registering
`DAI-ETH` twice and `B-A` once leaves two entries. -/
theorem ScrapePair_registers_witness :
    (NewBalancerScraper "Balancer").error = none ∧
    (NewBalancerScraper "Balancer").closed = false ∧
    ((NewBalancerScraper "Balancer").ScrapePair pairDaiEth).err = none ∧
    (scrapePairs (NewBalancerScraper "Balancer") [pairDaiEth, pairDaiEth, pairBA]).pairScrapers.len
      = 2 :=
  ⟨rfl, rfl, (ScrapePair_registers (NewBalancerScraper "Balancer") pairDaiEth rfl rfl).1,
    by decide⟩

/-- C4: `ScrapePair` fails exactly when the engine has a terminal error or is
closed; with a terminal error it returns that error, otherwise on a closed
engine the error "BalancerScraper is closed"; a failing call returns the nil
handle and leaves the engine, its table included, as it was; and `Error()` of
any handle is the terminal error of the engine. -/
theorem ScrapePair_fails_iff (s : BalancerScraper) (p : ExchangePair)
    (h : BalancerPairScraper) :
    ((s.ScrapePair p).err ≠ none ↔ (s.error ≠ none ∨ s.closed = true)) ∧
    (∀ e, s.error = some e → (s.ScrapePair p).err = some e) ∧
    (s.error = none → s.closed = true →
      (s.ScrapePair p).err = some "BalancerScraper is closed") ∧
    ((s.ScrapePair p).err ≠ none →
      (s.ScrapePair p).handle = none ∧ (s.ScrapePair p).scraper = s ∧
      (s.ScrapePair p).scraper.pairScrapers = s.pairScrapers) ∧
    ((s.ScrapePair p).err = none → (s.ScrapePair p).handle ≠ none) ∧
    h.Error s = s.error := by
  cases he : s.error with
  | some e => simp [BalancerScraper.ScrapePair, he, BalancerPairScraper.Error]
  | none =>
    cases hc : s.closed <;>
      simp [BalancerScraper.ScrapePair, he, hc, BalancerPairScraper.Error, errClosed]

/-- C5: `normalizeETH` turns the sell symbol into "ETH" exactly when it was
"WETH", likewise the buy symbol, and changes nothing else; afterwards neither
symbol is "WETH", a second application changes nothing, and a swap selling
WETH for DAI gets sell token "ETH" and pair key "DAI-ETH". -/
theorem normalizeETH_spec (s : BalancerSwap) :
    s.normalizeETH.SellToken = (if s.SellToken = "WETH" then "ETH" else s.SellToken) ∧
    s.normalizeETH.BuyToken = (if s.BuyToken = "WETH" then "ETH" else s.BuyToken) ∧
    (s.normalizeETH.SellToken ≠ s.SellToken ↔ s.SellToken = "WETH") ∧
    (s.normalizeETH.BuyToken ≠ s.BuyToken ↔ s.BuyToken = "WETH") ∧
    s.normalizeETH.SellVolume = s.SellVolume ∧
    s.normalizeETH.BuyVolume = s.BuyVolume ∧
    s.normalizeETH.ID = s.ID ∧
    s.normalizeETH.Timestamp = s.Timestamp ∧
    s.normalizeETH.SellToken ≠ "WETH" ∧
    s.normalizeETH.BuyToken ≠ "WETH" ∧
    s.normalizeETH.normalizeETH = s.normalizeETH ∧
    (s.SellToken = "WETH" → s.BuyToken = "DAI" →
      s.normalizeETH.SellToken = "ETH" ∧
      s.normalizeETH.BuyToken ++ "-" ++ s.normalizeETH.SellToken = "DAI-ETH") := by
  have hne : ("ETH" : String) ≠ "WETH" := by decide
  have hne2 : ("DAI" : String) ≠ "WETH" := by decide
  by_cases h1 : s.SellToken = "WETH" <;> by_cases h2 : s.BuyToken = "WETH" <;>
    simp [BalancerSwap.normalizeETH, h1, h2, hne, hne2, hne.symm, hne2.symm]
  intro h
  rw [h]
  rfl

/-- C1: a swap log handled by a live per-pool task whose pair key is
registered is sent as exactly one trade, with the pair key buy-sell of the
aliased registry symbols, price the quotient of sell volume by buy volume,
volume the buy volume, the symbol of the registered pair, the id
`txHash-logIndex`, the exchange name of the engine, the registry values of the
token-in and token-out address as base and quote token, and the verified flag
set; `getSwapDataBalancer` returns the same pair key, volume and price. -/
theorem swap_trade_fields (scraper : BalancerScraper) (t : SwapTask) (vLog : LogSwap)
    (now : Int) (ps : BalancerPairScraper)
    (hlive : t.returned = false)
    (hreg : scraper.pairScrapers.get?
      ((if (scraper.balancerTokensMap.get vLog.TokenOut).Symbol = "WETH" then "ETH"
          else (scraper.balancerTokensMap.get vLog.TokenOut).Symbol) ++ "-" ++
        (if (scraper.balancerTokensMap.get vLog.TokenIn).Symbol = "WETH" then "ETH"
          else (scraper.balancerTokensMap.get vLog.TokenIn).Symbol)) = some ps) :
    ∃ tr : Trade,
      (SwapTask.iterate scraper t (.log vLog now)).2.trades = [tr] ∧
      tr.Pair =
        (if (scraper.balancerTokensMap.get vLog.TokenOut).Symbol = "WETH" then "ETH"
          else (scraper.balancerTokensMap.get vLog.TokenOut).Symbol) ++ "-" ++
        (if (scraper.balancerTokensMap.get vLog.TokenIn).Symbol = "WETH" then "ETH"
          else (scraper.balancerTokensMap.get vLog.TokenIn).Symbol) ∧
      tr.Volume = scaleAmount vLog.TokenAmountOut
        (scraper.balancerTokensMap.get vLog.TokenOut).Decimals.val ∧
      tr.Price = Float64.div
        (scaleAmount vLog.TokenAmountIn (scraper.balancerTokensMap.get vLog.TokenIn).Decimals.val)
        (scaleAmount vLog.TokenAmountOut (scraper.balancerTokensMap.get vLog.TokenOut).Decimals.val) ∧
      tr.Symbol = ps.Pair.Symbol ∧
      tr.ForeignTradeID = vLog.TxHash ++ "-" ++ toString vLog.Index ∧
      tr.Source = scraper.exchangeName ∧
      tr.BaseToken = scraper.balancerTokensMap.get vLog.TokenIn ∧
      tr.QuoteToken = scraper.balancerTokensMap.get vLog.TokenOut ∧
      tr.VerifiedPair = true ∧
      tr.Time = now ∧
      getSwapDataBalancer (swapOfLog scraper vLog now).normalizeETH
        = (tr.Pair, tr.Volume, tr.Price) := by
  have hkey : (swapOfLog scraper vLog now).normalizeETH.BuyToken ++ "-" ++
      (swapOfLog scraper vLog now).normalizeETH.SellToken =
      (if (scraper.balancerTokensMap.get vLog.TokenOut).Symbol = "WETH" then "ETH"
          else (scraper.balancerTokensMap.get vLog.TokenOut).Symbol) ++ "-" ++
        (if (scraper.balancerTokensMap.get vLog.TokenIn).Symbol = "WETH" then "ETH"
          else (scraper.balancerTokensMap.get vLog.TokenIn).Symbol) := by
    rw [(normalizeETH_fields _).1, (normalizeETH_fields _).2.1]
    rfl
  rw [← hkey] at hreg
  simp only [SwapTask.iterate, hlive, Bool.false_eq_true, if_false, hreg]
  refine ⟨_, rfl, ?_⟩
  · refine ⟨hkey, ?_, ?_, rfl, ?_, rfl, rfl, rfl, rfl, ?_, ?_⟩
    · simp only [getSwapDataBalancer, (normalizeETH_fields _).2.2.2.1]
      rfl
    · simp only [getSwapDataBalancer, (normalizeETH_fields _).2.2.1,
        (normalizeETH_fields _).2.2.2.1]
      rfl
    · simp only [(normalizeETH_fields _).2.2.2.2.1]
      rfl
    · simp only [(normalizeETH_fields _).2.2.2.2.2]
      rfl
    · simp only [getSwapDataBalancer, hkey]

/-- The values of the first end-to-end scenario: `float64` 2 is
`2 ^ 52 * 2 ^ (-51)` and `float64` 0.5 is `2 ^ 52 * 2 ^ (-53)`. -/
theorem scenario_values :
    (Float64.finite (2 ^ 52) (-51)).toRat? = some 2 ∧
    (Float64.finite (2 ^ 52) (-53)).toRat? = some (1 / 2) := by
  have h1 : (-51 : Int).toNat = 0 := rfl
  have h2 : (51 : Int).toNat = 51 := rfl
  have h3 : (-53 : Int).toNat = 0 := rfl
  have h4 : (53 : Int).toNat = 53 := rfl
  constructor <;> norm_num [Float64.toRat?, Float64.num, Float64.den, h1, h2, h3, h4]

set_option maxRecDepth 100000 in
/-- C1 at the first end-to-end scenario: tokens A (6 decimals) and B (18
decimals), pair `B-A` registered, swap of 1_000_000 A for 2 * 10^18 B; the
trade has pair `B-A`, volume 2 and price 0.5. -/
theorem swap_trade_fields_witness :
    ∃ tr : Trade,
      (SwapTask.iterate engineBA (SwapTask.start engineBA "0xPool") (.log logAB 1600000000)).2.trades
        = [tr] ∧
      tr.Pair = "B-A" ∧ tr.Symbol = "B" ∧
      tr.Volume = .finite (2 ^ 52) (-51) ∧ tr.Price = .finite (2 ^ 52) (-53) ∧
      tr.Volume.toRat? = some 2 ∧ tr.Price.toRat? = some (1 / 2) ∧
      tr.ForeignTradeID = "0x5eed-7" ∧ tr.Source = "Balancer" ∧
      tr.BaseToken = assetA ∧ tr.QuoteToken = assetB ∧ tr.VerifiedPair = true ∧
      getSwapDataBalancer (swapOfLog engineBA logAB 1600000000).normalizeETH =
        ("B-A", .finite (2 ^ 52) (-51), .finite (2 ^ 52) (-53)) := by
  obtain ⟨tr, h1, h2, h3, h4, h5, h6, h7, h8, h9, h10, _, h12⟩ :=
    swap_trade_fields engineBA (SwapTask.start engineBA "0xPool") logAB 1600000000
      ⟨pairBA, false⟩ (by decide) (by decide)
  have hv : tr.Volume = .finite (2 ^ 52) (-51) := by rw [h3]; decide
  have hp : tr.Price = .finite (2 ^ 52) (-53) := by rw [h4]; decide
  have hk : tr.Pair = "B-A" := by rw [h2]; decide
  refine ⟨tr, h1, hk, by rw [h5]; decide, hv, hp, by rw [hv]; exact scenario_values.1,
    by rw [hp]; exact scenario_values.2, by rw [h6]; decide, by rw [h7]; decide,
    by rw [h8]; decide, by rw [h9]; decide, h10, ?_⟩
  rw [h12, hk, hv, hp]

/-- C7, what the code does: when a running task receives a swap whose pair key
is not in the pair-scraper table, it sends no trade and returns from its
loop, so that nothing the subscription would deliver afterwards is handled:
the whole run sends no trade and no resubscribe message. -/
theorem unregistered_swap_ends_task (scraper : BalancerScraper) (pool : String)
    (vLog : LogSwap) (now : Int) (rest : List SwapSubEvent)
    (hrun : scraper.run = true)
    (hunreg : scraper.pairScrapers.get?
      ((swapOfLog scraper vLog now).normalizeETH.BuyToken ++ "-" ++
        (swapOfLog scraper vLog now).normalizeETH.SellToken) = none) :
    subscribeToNewSwaps scraper pool (.log vLog now :: rest) =
      ({ poolToSub := pool, subscribed := true, returned := true }, ⟨[], []⟩) := by
  have hit : SwapTask.iterate scraper (SwapTask.start scraper pool) (.log vLog now) =
      ({ poolToSub := pool, subscribed := true, returned := true }, ⟨[], []⟩) := by
    simp [SwapTask.iterate, SwapTask.start, hrun, hunreg]
  simp [subscribeToNewSwaps, SwapTask.runFrom, hit, SwapTask.runFrom_returned]

set_option maxRecDepth 100000 in
/-- C7 at the failing input: with only `B-A` registered, the swap of A for B
alone yields one trade, but after a swap of X for Y on the same subscription
the task has returned and the swap of A for B yields none. -/
theorem unregistered_swap_ends_task_witness :
    engineXY.run = true ∧
    (subscribeToNewSwaps engineXY "0xPool" [.log logAB 1600000000]).2.trades.length = 1 ∧
    subscribeToNewSwaps engineXY "0xPool" [.log logXY 1600000000, .log logAB 1600000001] =
      ({ poolToSub := "0xPool", subscribed := true, returned := true }, ⟨[], []⟩) :=
  ⟨by decide, by decide,
    unregistered_swap_ends_task engineXY "0xPool" logXY 1600000000 [.log logAB 1600000001]
      (by decide) (by decide)⟩

set_option maxRecDepth 100000 in
/-- C10 fails as stated: with the token at `0xY` absent from the registry and
the key `-A` registered, the swap is not dropped; one trade is sent, its quote
token the zero asset and its volume the unscaled amount 5. -/
theorem absent_token_trade_sent :
    engineDashA.balancerTokensMap.get? "0xY" = none ∧
    ((SwapTask.iterate engineDashA (SwapTask.start engineDashA "0xPool")
        (.log logAY 1600000000)).2.trades.map
      (fun tr => (tr.Pair, tr.QuoteToken, tr.Volume))) =
      [("-A", ⟨"", "", "", 0, ""⟩, .finite (5 * 2 ^ 50) (-50))] := by
  decide

/-- C10 as amended: every trade the task sends for a swap log carries as base
and quote token the registry values at the token-in and token-out address: the
registry entry when the address is a key, the zero asset when it is not. No
membership test is made: a live task sends a trade for the log exactly when the
pair key built from these values is in the pair-scraper table. -/
theorem trade_tokens_registry_values (scraper : BalancerScraper) (t : SwapTask)
    (vLog : LogSwap) (now : Int) :
    (∀ tr ∈ (SwapTask.iterate scraper t (.log vLog now)).2.trades,
      (∀ a, scraper.balancerTokensMap.get? vLog.TokenIn = some a → tr.BaseToken = a) ∧
      (scraper.balancerTokensMap.get? vLog.TokenIn = none → tr.BaseToken = ⟨"", "", "", 0, ""⟩) ∧
      (∀ a, scraper.balancerTokensMap.get? vLog.TokenOut = some a → tr.QuoteToken = a) ∧
      (scraper.balancerTokensMap.get? vLog.TokenOut = none →
        tr.QuoteToken = ⟨"", "", "", 0, ""⟩)) ∧
    ((SwapTask.iterate scraper t (.log vLog now)).2.trades ≠ [] ↔
      (t.returned = false ∧
        (scraper.pairScrapers.get?
          ((swapOfLog scraper vLog now).normalizeETH.BuyToken ++ "-" ++
            (swapOfLog scraper vLog now).normalizeETH.SellToken)).isSome = true)) := by
  cases hret : t.returned with
  | true => simp [SwapTask.iterate, hret]
  | false =>
    cases hreg : scraper.pairScrapers.get?
        ((swapOfLog scraper vLog now).normalizeETH.BuyToken ++ "-" ++
          (swapOfLog scraper vLog now).normalizeETH.SellToken) with
    | none => simp [SwapTask.iterate, hret, hreg]
    | some ps =>
      simp only [SwapTask.iterate, hret, Bool.false_eq_true, if_false, hreg]
      refine ⟨?_, by simp⟩
      intro tr htr
      simp only [List.mem_singleton] at htr
      subst htr
      simp only [GoMap.get]
      refine ⟨?_, ?_, ?_, ?_⟩
      · intro a ha; simp [ha]
      · intro ha; simp [ha]; rfl
      · intro a ha; simp [ha]
      · intro ha; simp [ha]; rfl

/-! ## Close and the main loop: facts -/

theorem System.init_inv (name : String) (scrape : Bool) : (System.init name scrape).Inv := by
  cases scrape <;> simp [System.Inv, System.init, NewBalancerScraper]

theorem System.step_inv (sys sys' : System) (a : Action) (hinv : sys.Inv)
    (h : sys.step a = some sys') : sys'.Inv := by
  cases a <;> simp only [System.step, BalancerScraper.closeCall, Option.map] at h <;>
    (repeat' split at h) <;> cases h <;>
    simp_all [System.Inv, mainLoop.init, mainLoop.check, mainLoop.setError,
      BalancerScraper.cleanup, BalancerScraper.ScrapePair]
  all_goals aesop

theorem System.run_inv (acts : List Action) (sys sys' : System) (hinv : sys.Inv)
    (h : sys.run acts = some sys') : sys'.Inv := by
  induction acts generalizing sys with
  | nil =>
    simp only [System.run] at h
    cases h
    exact hinv
  | cons a as ih =>
    simp only [System.run] at h
    cases hstep : sys.step a with
    | none => simp [hstep] at h
    | some mid =>
      rw [hstep] at h
      exact ih mid (System.step_inv sys mid a hinv hstep) h

/-! ## Claims, continued -/

/-- C3 fails as stated: in a run where `B-A` is registered and `Close` is
called and returns, a later `ScrapePair` returns the nil handle with the error
"main loop terminated by Close()", not "BalancerScraper is closed". -/
theorem ScrapePair_after_Close_not_closed_error :
    ((System.init "Balancer" true).run traceRegisterThenClose).map
      (fun sys => (sys.closePc, (sys.scraper.ScrapePair pairDaiEth).handle,
        (sys.scraper.ScrapePair pairDaiEth).err,
        decide ((sys.scraper.ScrapePair pairDaiEth).err = some "BalancerScraper is closed"))) =
      some (.returned, none, some "main loop terminated by Close()", false) := by
  decide

/-- C3 as amended: in every state reached from a new engine in which `Close`
has been called and has returned, `ScrapePair` returns the nil handle and the
terminal error of the engine, which is "no pairs to scrape provided" or
"main loop terminated by Close()" and never "BalancerScraper is closed", and
leaves the engine, its table included, unchanged. -/
theorem ScrapePair_after_Close (name : String) (scrape : Bool) (acts : List Action)
    (sys : System) (pair : ExchangePair)
    (hreach : (System.init name scrape).run acts = some sys)
    (hret : sys.closePc = .returned) :
    (sys.scraper.ScrapePair pair).handle = none ∧
    (sys.scraper.ScrapePair pair).err = sys.scraper.error ∧
    ((sys.scraper.ScrapePair pair).err = some "no pairs to scrape provided" ∨
      (sys.scraper.ScrapePair pair).err = some "main loop terminated by Close()") ∧
    (sys.scraper.ScrapePair pair).err ≠ some "BalancerScraper is closed" ∧
    (sys.scraper.ScrapePair pair).scraper = sys.scraper ∧
    sys.scraper.closed = true := by
  obtain ⟨h1, h2, h3, h4, h5⟩ := System.run_inv acts _ sys (System.init_inv name scrape) hreach
  have hdone := h5 hret
  have hne := h2 (Or.inr (h3 hdone))
  have hclosed := h4 hdone
  rcases h1 with h1 | h1 | h1
  · exact absurd h1 hne
  · simp [BalancerScraper.ScrapePair, h1, errNoPairs, hclosed]
  · simp [BalancerScraper.ScrapePair, h1, errTerminated, hclosed]

/-- C3 amended, at the run in which no pair is registered: `Close` returns and
`ScrapePair` then returns the error "no pairs to scrape provided". -/
theorem ScrapePair_after_Close_witness :
    (System.init "Balancer" true).run traceCloseNoPairs = some sysClosedNoPairs ∧
    sysClosedNoPairs.closePc = .returned ∧
    (sysClosedNoPairs.scraper.ScrapePair pairBA).handle = none ∧
    (sysClosedNoPairs.scraper.ScrapePair pairBA).err = some "no pairs to scrape provided" := by
  have h := ScrapePair_after_Close "Balancer" true traceCloseNoPairs sysClosedNoPairs pairBA
    (by decide) (by decide)
  exact ⟨by decide, by decide, h.1, by rw [h.2.1]; decide⟩

/-! ## Enumeration of the available pairs: facts -/

theorem FetchAvailablePairs.inner_stuck_left (resolve : String → Option Asset)
    (tokens : List String) (i j : Nat) (hj : j < tokens.length)
    (hfail : resolve (tokens.getD i "") = none) (fuel : Nat) (st : FetchState) :
    FetchAvailablePairs.inner resolve tokens i fuel j st = none := by
  induction fuel with
  | zero => rfl
  | succ fuel ih =>
    obtain ⟨pair, pairs⟩ := st
    simp only [FetchAvailablePairs.inner, hj, if_true, hfail]
    exact ih

theorem FetchAvailablePairs.inner_stuck_right (resolve : String → Option Asset)
    (tokens : List String) (i k : Nat) (hk : k < tokens.length)
    (hfail : resolve (tokens.getD k "") = none) (fuel : Nat) (j : Nat) (hjk : j ≤ k)
    (st : FetchState) :
    FetchAvailablePairs.inner resolve tokens i fuel j st = none := by
  induction fuel generalizing j st with
  | zero => rfl
  | succ fuel ih =>
    obtain ⟨pair, pairs⟩ := st
    have hj : j < tokens.length := Nat.lt_of_le_of_lt hjk hk
    simp only [FetchAvailablePairs.inner, hj, if_true]
    cases h0 : resolve (tokens.getD i "") with
    | none => exact ih j hjk _
    | some asset0 =>
      cases h1 : resolve (tokens.getD j "") with
      | none => exact ih j hjk _
      | some asset1 =>
        have hne : j ≠ k := by
          intro h
          rw [h, hfail] at h1
          cases h1
        exact ih (j + 1) (by omega) _

theorem FetchAvailablePairs.outer_stuck (resolve : String → Option Asset)
    (tokens : List String) (k : Nat) (hlen : 2 ≤ tokens.length) (hk : k < tokens.length)
    (hfail : resolve (tokens.getD k "") = none) (fuel : Nat) (st : FetchState) :
    FetchAvailablePairs.outer resolve tokens fuel tokens.length 0 st = none := by
  obtain ⟨n, hn⟩ : ∃ n, tokens.length = n + 1 := ⟨tokens.length - 1, by omega⟩
  rw [hn]
  simp only [FetchAvailablePairs.outer]
  have hinner : FetchAvailablePairs.inner resolve tokens 0 fuel (0 + 1) st = none := by
    cases k with
    | zero => exact FetchAvailablePairs.inner_stuck_left resolve tokens 0 1 (by omega) hfail fuel st
    | succ k =>
      exact FetchAvailablePairs.inner_stuck_right resolve tokens 0 (k + 1) hk hfail fuel 1
        (by omega) st
  rw [hinner]
  rfl

theorem FetchAvailablePairs.pools_stuck (resolve : String → Option Asset) (fuel : Nat)
    (poolTokens : List (List String)) (tokens : List String) (k : Nat)
    (hmem : tokens ∈ poolTokens) (hlen : 2 ≤ tokens.length) (hk : k < tokens.length)
    (hfail : resolve (tokens.getD k "") = none) (pairs : List ExchangePair) :
    FetchAvailablePairs.pools resolve fuel poolTokens pairs = none := by
  induction poolTokens generalizing pairs with
  | nil => cases hmem
  | cons head rest ih =>
    simp only [FetchAvailablePairs.pools]
    rcases List.mem_cons.mp hmem with h | h
    · subst h
      have : ¬ tokens.length < 2 := by omega
      simp only [this, if_false]
      rw [FetchAvailablePairs.outer_stuck resolve tokens k hlen hk hfail]
      rfl
    · split
      · exact ih h pairs
      · cases FetchAvailablePairs.outer resolve head fuel head.length 0 (default, pairs) with
        | none => rfl
        | some st => exact ih h st.2

/-! ## The watchdog loop: facts -/

theorem Since_gt_iff (now t : Int) :
    Since now t > watchdogDelay * Second ↔ now - t > 3600 * 10 ^ 9 := by
  simp only [Since, watchdogDelay, Second, maxDuration, minDuration]
  norm_num

theorem SinkState.foldl_not_selecting (evs : List SinkEvent) (s : SinkState)
    (h : s.status ≠ .selecting) : evs.foldl SinkState.iterate s = s := by
  induction evs with
  | nil => rfl
  | cons ev evs ih =>
    have hs : s.iterate ev = s := by
      cases hst : s.status with
      | selecting => exact absurd hst h
      | panicked msg => simp [SinkState.iterate, hst]
      | returned => simp [SinkState.iterate, hst]
    simp only [List.foldl, hs]
    exact ih

theorem SinkState.foldl_selecting (evs : List SinkEvent) (s : SinkState)
    (h : (evs.foldl SinkState.iterate s).status = .selecting) :
    s.status = .selecting ∧
    (evs.foldl SinkState.iterate s).lastTradeTime = lastReceive s.lastTradeTime evs ∧
    (evs.foldl SinkState.iterate s).wg = s.wg := by
  induction evs generalizing s with
  | nil => exact ⟨h, rfl, rfl⟩
  | cons ev evs ih =>
    simp only [List.foldl] at h ⊢
    obtain ⟨h1, h2, h3⟩ := ih (s.iterate ev) h
    have hsel : s.status = .selecting := by
      by_contra hne
      have : s.iterate ev = s := by
        cases hst : s.status with
        | selecting => exact absurd hst hne
        | panicked msg => simp [SinkState.iterate, hst]
        | returned => simp [SinkState.iterate, hst]
      rw [this] at h1
      exact hne h1
    refine ⟨hsel, ?_, ?_⟩
    · rw [h2]
      cases ev with
      | tick now =>
        simp only [SinkState.iterate, hsel, lastReceive] at h1 ⊢
        split <;> rfl
      | datum now e => simp [SinkState.iterate, hsel, lastReceive]
      | closed =>
        simp only [SinkState.iterate, hsel] at h1
        split at h1 <;> cases h1
    · rw [h3]
      cases ev with
      | tick now =>
        simp only [SinkState.iterate, hsel]
        split <;> rfl
      | datum now e => simp [SinkState.iterate, hsel]
      | closed =>
        simp only [SinkState.iterate, hsel] at h1
        split at h1 <;> cases h1

/-! ## Claims, continued: enumeration and watchdog -/

/-- C8, what the code does: when some pool with at least two tokens holds a
token the asset resolver fails on, the inner loop of `FetchAvailablePairs`
repeats the same iteration without advancing `j`, so that no amount of fuel
makes the function return. -/
theorem FetchAvailablePairs_unresolved_never_returns (resolve : String → Option Asset)
    (poolTokens : List (List String)) (tokens : List String) (k : Nat)
    (hmem : tokens ∈ poolTokens) (hlen : 2 ≤ tokens.length) (hk : k < tokens.length)
    (hfail : resolve (tokens.getD k "") = none) :
    ∀ fuel, FetchAvailablePairs resolve poolTokens fuel = none := by
  intro fuel
  exact FetchAvailablePairs.pools_stuck resolve fuel poolTokens tokens k hmem hlen hk hfail []

/-- C8 at the failing input: one pool with the tokens `0xA` and `0xB`, of which
only `0xA` resolves; the function never returns, whereas with both tokens
resolvable it returns the one pair `A-B`. -/
theorem FetchAvailablePairs_unresolved_never_returns_witness :
    resolveOnlyA "0xB" = none ∧
    (∀ fuel, FetchAvailablePairs resolveOnlyA [["0xA", "0xB"]] fuel = none) ∧
    (FetchAvailablePairs resolveABX [["0xA", "0xB"]] 2).map
      (fun pairs => pairs.map (fun p => p.ForeignName)) = some ["A-B"] :=
  ⟨by decide,
    FetchAvailablePairs_unresolved_never_returns resolveOnlyA [["0xA", "0xB"]] ["0xA", "0xB"] 1
      (by simp) (by simp) (by simp) (by decide),
    by decide⟩

/-- C9: while the loop of `handleorderBook`, started by `main`, is selecting
after the events `pre`, its `lastTradeTime` is the clock reading of the most
recent datum (the start reading when there is none); a tick at reading `now`
ends in the panic "frozen? " exactly when `now - lastTradeTime` exceeds
3600 seconds, and otherwise leaves the state as it was; a datum never ends the
loop and sets `lastTradeTime` to the current reading; and the closure of the
channel makes the loop return, the wait-group counter going from 1 to 0. -/
theorem watchdog_step_semantics (start : Int) (pre : List SinkEvent)
    (hsel : (mainSink start pre).status = .selecting) :
    (mainSink start pre).lastTradeTime = lastReceive start pre ∧
    (∀ now, (mainSink start (pre ++ [.tick now])).status = .panicked "frozen? " ↔
      now - lastReceive start pre > 3600 * 10 ^ 9) ∧
    (∀ now, ¬ (now - lastReceive start pre > 3600 * 10 ^ 9) →
      mainSink start (pre ++ [.tick now]) = mainSink start pre) ∧
    (∀ now e, (mainSink start (pre ++ [.datum now e])).status = .selecting ∧
      (mainSink start (pre ++ [.datum now e])).lastTradeTime = now ∧
      (mainSink start (pre ++ [.datum now e])).wg = 1) ∧
    ((mainSink start (pre ++ [.closed])).status = .returned ∧
      (mainSink start pre).wg = 1 ∧
      (mainSink start (pre ++ [.closed])).wg = 0) := by
  obtain ⟨_, hlast, hwg⟩ := SinkState.foldl_selecting pre _ hsel
  simp only [mainSink, handleorderBook] at hsel hlast hwg ⊢
  simp only [List.foldl_append, List.foldl_cons, List.foldl_nil]
  refine ⟨hlast, ?_, ?_, ?_, ?_⟩
  · intro now
    rw [← hlast, ← Since_gt_iff]
    generalize List.foldl SinkState.iterate _ pre = s at hsel
    by_cases hc : Since now s.lastTradeTime > watchdogDelay * Second
    · simp [SinkState.iterate, hsel, hc]
    · simp [SinkState.iterate, hsel, hc]
  · intro now hnot
    rw [← hlast, ← Since_gt_iff] at hnot
    simp only [SinkState.iterate, hsel, hnot, if_false]
  · intro now e
    simp [SinkState.iterate, hsel, hwg]
  · simp [SinkState.iterate, hsel, hwg]

/-- C9 at a concrete history: started at reading 0, a datum received at
1000 seconds; a tick at 4600 seconds passes, a tick one nanosecond later
panics. -/
theorem watchdog_step_semantics_witness :
    (mainSink 0 [.tick 3600000000000, .datum 1000000000000 none]).status = .selecting ∧
    (mainSink 0 [.tick 3600000000000, .datum 1000000000000 none,
      .tick 4600000000000]).status = .selecting ∧
    (mainSink 0 [.tick 3600000000000, .datum 1000000000000 none,
      .tick 4600000000001]).status = .panicked "frozen? " ∧
    (mainSink 0 [.tick 3600000000000, .datum 1000000000000 none, .closed]).status
      = .returned := by
  have h := watchdog_step_semantics 0 [.tick 3600000000000, .datum 1000000000000 none]
    (by decide)
  refine ⟨by decide, ?_, ?_, h.2.2.2.2.1⟩
  · have := h.2.2.1 4600000000000 (by decide)
    simp only [List.cons_append, List.nil_append] at this
    rw [this]
    decide
  · exact (h.2.1 4600000000001).mpr (by decide)

/-! ## Binary floating point: facts -/

theorem log2Fuel_spec (fuel n : Nat) (hn : 0 < n) (hfuel : n ≤ fuel) :
    2 ^ log2Fuel fuel n ≤ n ∧ n < 2 ^ (log2Fuel fuel n + 1) := by
  induction fuel generalizing n with
  | zero => omega
  | succ fuel ih =>
    simp only [log2Fuel]
    by_cases h2 : n < 2
    · simp only [h2, if_true]
      omega
    · simp only [h2, if_false]
      obtain ⟨h1, h3⟩ := ih (n / 2) (by omega) (by omega)
      rw [pow_succ, pow_succ]
      rw [pow_succ] at h3
      constructor <;> omega

theorem floorLog2_spec (n : Nat) (hn : 0 < n) :
    2 ^ floorLog2 n ≤ n ∧ n < 2 ^ (floorLog2 n + 1) :=
  log2Fuel_spec n n hn (le_refl n)

theorem floorLog2_spec_rat (n : Nat) (hn : 0 < n) :
    (2 : ℚ) ^ (floorLog2 n : Int) ≤ n ∧ (n : ℚ) < 2 ^ ((floorLog2 n : Int) + 1) := by
  obtain ⟨h1, h2⟩ := floorLog2_spec n hn
  constructor
  · rw [zpow_natCast]
    exact_mod_cast h1
  · have : ((floorLog2 n : Int) + 1) = ((floorLog2 n + 1 : Nat) : Int) := by push_cast; ring
    rw [this, zpow_natCast]
    exact_mod_cast h2

theorem two_zpow_pos (z : Int) : (0 : ℚ) < 2 ^ z :=
  zpow_pos (by norm_num) z

theorem two_zpow_le_iff (a b : Int) : (2 : ℚ) ^ a ≤ 2 ^ b ↔ a ≤ b :=
  zpow_le_zpow_iff_right₀ (by norm_num)

theorem two_zpow_lt_iff (a b : Int) : (2 : ℚ) ^ a < 2 ^ b ↔ a < b :=
  zpow_lt_zpow_iff_right₀ (by norm_num)

theorem two_zpow_add (a b : Int) : (2 : ℚ) ^ (a + b) = 2 ^ a * 2 ^ b :=
  zpow_add₀ (by norm_num) a b

theorem two_zpow_sub (a b : Int) : (2 : ℚ) ^ (a - b) = 2 ^ a / 2 ^ b :=
  zpow_sub₀ (by norm_num) a b

/-- The test of `binExp`, read in the rationals. -/
theorem binExp_test (n d : Nat) (hd : 0 < d) (z : Int) :
    (match z with
      | Int.ofNat k => decide (d * 2 ^ k ≤ n)
      | Int.negSucc k => decide (d ≤ n * 2 ^ (k + 1))) = true ↔
    (2 : ℚ) ^ z ≤ (n : ℚ) / d := by
  have hdq : (0 : ℚ) < d := by exact_mod_cast hd
  cases z with
  | ofNat k =>
    simp only [decide_eq_true_eq, Int.ofNat_eq_coe, zpow_natCast]
    rw [le_div_iff₀ hdq]
    constructor
    · intro h
      have : ((d * 2 ^ k : Nat) : ℚ) ≤ n := by exact_mod_cast h
      push_cast at this
      linarith
    · intro h
      have : ((d * 2 ^ k : Nat) : ℚ) ≤ n := by push_cast; linarith
      exact_mod_cast this
  | negSucc k =>
    simp only [decide_eq_true_eq]
    have hz : (2 : ℚ) ^ (Int.negSucc k) = 1 / 2 ^ (k + 1) := by
      rw [Int.negSucc_eq, zpow_neg, one_div]
      congr 1
      have : ((k : Int) + 1) = ((k + 1 : Nat) : Int) := by push_cast; ring
      rw [this, zpow_natCast]
    have hp : (0 : ℚ) < 2 ^ (k + 1) := by positivity
    rw [hz, le_div_iff₀ hdq, div_mul_eq_mul_div, one_mul, div_le_iff₀ hp]
    constructor
    · intro h
      have : ((d : Nat) : ℚ) ≤ ((n * 2 ^ (k + 1) : Nat) : ℚ) := by exact_mod_cast h
      push_cast at this
      linarith
    · intro h
      have : ((d : Nat) : ℚ) ≤ ((n * 2 ^ (k + 1) : Nat) : ℚ) := by push_cast; linarith
      exact_mod_cast this

theorem binExp_eq (n d : Nat) :
    binExp n d =
      if (match ((floorLog2 n : Int) - (floorLog2 d : Int)) with
          | Int.ofNat k => decide (d * 2 ^ k ≤ n)
          | Int.negSucc k => decide (d ≤ n * 2 ^ (k + 1))) = true
      then (floorLog2 n : Int) - (floorLog2 d : Int)
      else (floorLog2 n : Int) - (floorLog2 d : Int) - 1 := by
  simp only [binExp]
  cases h : ((floorLog2 n : Int) - (floorLog2 d : Int)) with
  | ofNat k => simp only [decide_eq_true_eq]
  | negSucc k => simp only [decide_eq_true_eq]

/-- The binary exponent brackets the quotient. -/
theorem binExp_spec (n d : Nat) (hn : 0 < n) (hd : 0 < d) :
    (2 : ℚ) ^ binExp n d ≤ (n : ℚ) / d ∧ (n : ℚ) / d < 2 ^ (binExp n d + 1) := by
  have hdq : (0 : ℚ) < d := by exact_mod_cast hd
  obtain ⟨hn1, hn2⟩ := floorLog2_spec_rat n hn
  obtain ⟨hd1, hd2⟩ := floorLog2_spec_rat d hd
  have hupper : (n : ℚ) / d < 2 ^ ((floorLog2 n : Int) - (floorLog2 d : Int) + 1) := by
    have : ((floorLog2 n : Int) - (floorLog2 d : Int) + 1) =
        ((floorLog2 n : Int) + 1) - (floorLog2 d : Int) := by ring
    rw [this, two_zpow_sub, div_lt_div_iff₀ hdq (two_zpow_pos _)]
    calc (n : ℚ) * 2 ^ (floorLog2 d : Int) ≤ n * d :=
          mul_le_mul_of_nonneg_left hd1 (by positivity)
      _ < 2 ^ ((floorLog2 n : Int) + 1) * d := mul_lt_mul_of_pos_right hn2 hdq
  have hlower : (2 : ℚ) ^ ((floorLog2 n : Int) - (floorLog2 d : Int) - 1) ≤ (n : ℚ) / d := by
    have : ((floorLog2 n : Int) - (floorLog2 d : Int) - 1) =
        (floorLog2 n : Int) - ((floorLog2 d : Int) + 1) := by ring
    rw [this, two_zpow_sub, div_le_div_iff₀ (two_zpow_pos _) hdq]
    calc (2 : ℚ) ^ (floorLog2 n : Int) * d ≤ n * d :=
          mul_le_mul_of_nonneg_right hn1 (le_of_lt hdq)
      _ ≤ n * 2 ^ ((floorLog2 d : Int) + 1) :=
          mul_le_mul_of_nonneg_left (le_of_lt hd2) (by positivity)
  rw [binExp_eq]
  split
  · rename_i h
    exact ⟨(binExp_test n d hd _).mp h, hupper⟩
  · rename_i h
    have h' := mt (binExp_test n d hd _).mpr h
    refine ⟨hlower, ?_⟩
    have : ((floorLog2 n : Int) - (floorLog2 d : Int) - 1 + 1) =
        (floorLog2 n : Int) - (floorLog2 d : Int) := by ring
    rw [this]
    exact lt_of_not_le h'

/-- The binary exponent is the only exponent that brackets the quotient. -/
theorem binExp_unique (n d : Nat) (hn : 0 < n) (hd : 0 < d) (z : Int)
    (h1 : (2 : ℚ) ^ z ≤ (n : ℚ) / d) (h2 : (n : ℚ) / d < 2 ^ (z + 1)) :
    binExp n d = z := by
  obtain ⟨b1, b2⟩ := binExp_spec n d hn hd
  have ha : binExp n d < z + 1 := (two_zpow_lt_iff _ _).mp (lt_of_le_of_lt b1 h2)
  have hb : z < binExp n d + 1 := (two_zpow_lt_iff _ _).mp (lt_of_le_of_lt h1 b2)
  omega

theorem roundHalfEven_bounds (N D : Nat) (hD : 0 < D) :
    2 * (roundHalfEven N D * D) ≤ 2 * N + D ∧ 2 * N ≤ 2 * (roundHalfEven N D * D) + D := by
  have hdm : D * (N / D) + N % D = N := Nat.div_add_mod N D
  have hr : N % D < D := Nat.mod_lt N hD
  have hc : N / D * D = D * (N / D) := Nat.mul_comm _ _
  simp only [roundHalfEven]
  split
  · rw [hc]; constructor <;> omega
  · split
    · rw [Nat.add_mul, hc]; constructor <;> omega
    · rcases Nat.mod_two_eq_zero_or_one (N / D) with h | h
      · rw [h, Nat.add_zero, hc]; constructor <;> omega
      · rw [h, Nat.add_mul, hc]; constructor <;> omega

theorem roundHalfEven_close (N D : Nat) (hD : 0 < D) :
    |(roundHalfEven N D : ℚ) - (N : ℚ) / D| ≤ 1 / 2 := by
  obtain ⟨h1, h2⟩ := roundHalfEven_bounds N D hD
  have hDq : (0 : ℚ) < D := by exact_mod_cast hD
  have q1 : (2 : ℚ) * (roundHalfEven N D * D) ≤ 2 * N + D := by exact_mod_cast h1
  have q2 : (2 : ℚ) * N ≤ 2 * (roundHalfEven N D * D) + D := by exact_mod_cast h2
  have hx : (N : ℚ) / D * D = N := div_mul_cancel₀ _ (ne_of_gt hDq)
  generalize (N : ℚ) / D = x at hx
  rw [abs_le]
  constructor
  · have : (x - 1 / 2) * D ≤ (roundHalfEven N D : ℚ) * D := by linarith
    linarith [le_of_mul_le_mul_right this hDq]
  · have : (roundHalfEven N D : ℚ) * D ≤ (x + 1 / 2) * D := by linarith
    linarith [le_of_mul_le_mul_right this hDq]

theorem roundScaled_close (n d : Nat) (hd : 0 < d) (qe : Int) :
    |(roundScaled n d qe : ℚ) - (n : ℚ) / d / 2 ^ qe| ≤ 1 / 2 := by
  have hdq : (d : ℚ) ≠ 0 := by exact_mod_cast (Nat.pos_iff_ne_zero.mp hd)
  cases qe with
  | ofNat k =>
    simp only [roundScaled]
    have h := roundHalfEven_close n (d * 2 ^ k) (by positivity)
    have e : ((n : ℚ) / ((d * 2 ^ k : Nat) : ℚ)) = (n : ℚ) / d / 2 ^ (Int.ofNat k) := by
      rw [Int.ofNat_eq_coe, zpow_natCast]
      push_cast
      rw [div_div]
    rw [e] at h
    exact h
  | negSucc k =>
    simp only [roundScaled]
    have h := roundHalfEven_close (n * 2 ^ (k + 1)) d hd
    have e : (((n * 2 ^ (k + 1) : Nat) : ℚ) / (d : ℚ)) = (n : ℚ) / d / 2 ^ (Int.negSucc k) := by
      have hz : (2 : ℚ) ^ (Int.negSucc k) = (2 ^ (k + 1))⁻¹ := by
        rw [Int.negSucc_eq, zpow_neg]
        congr 1
        have : ((k : Int) + 1) = ((k + 1 : Nat) : Int) := by push_cast; ring
        rw [this, zpow_natCast]
      rw [hz]
      push_cast
      field_simp
    rw [e] at h
    exact h

/-- Two naturals less than one apart are equal. -/
theorem nat_eq_of_close (a b : Nat) (h : |(a : ℚ) - b| ≤ 1 / 2) : a = b := by
  rw [abs_le] at h
  have h1 : (b : ℚ) < a + 1 := by linarith [h.1]
  have h2 : (a : ℚ) < b + 1 := by linarith [h.2]
  have h1' : b < a + 1 := by exact_mod_cast h1
  have h2' : a < b + 1 := by exact_mod_cast h2
  omega

theorem normalized_bracket (M : Nat) (E : Int) (hM1 : 2 ^ 52 ≤ M) (hM2 : M < 2 ^ 53) :
    (2 : ℚ) ^ (E + 52) ≤ (M : ℚ) * 2 ^ E ∧ (M : ℚ) * 2 ^ E < 2 ^ (E + 52 + 1) := by
  have hp := two_zpow_pos E
  have q1 : ((2 : ℚ) ^ 52) ≤ M := by exact_mod_cast hM1
  have q2 : (M : ℚ) < 2 ^ 53 := by exact_mod_cast hM2
  have e1 : (2 : ℚ) ^ (E + 52) = 2 ^ 52 * 2 ^ E := by
    rw [two_zpow_add, mul_comm]; norm_num
  have e2 : (2 : ℚ) ^ (E + 52 + 1) = 2 ^ 53 * 2 ^ E := by
    rw [show E + 52 + 1 = E + 53 by ring, two_zpow_add, mul_comm]; norm_num
  rw [e1, e2]
  exact ⟨mul_le_mul_of_nonneg_right q1 (le_of_lt hp), mul_lt_mul_of_pos_right q2 hp⟩

/-- What both roundings do to a quotient that is a normalised 53-bit value. -/
theorem rounding_exact (n d M : Nat) (E : Int) (hn : 0 < n) (hd : 0 < d)
    (hM1 : 2 ^ 52 ≤ M) (hM2 : M < 2 ^ 53) (hval : (n : ℚ) / d = (M : ℚ) * 2 ^ E) :
    binExp n d = E + 52 ∧ roundScaled n d E = M := by
  obtain ⟨b1, b2⟩ := normalized_bracket M E hM1 hM2
  refine ⟨binExp_unique n d hn hd (E + 52) (by rw [hval]; exact b1) (by rw [hval]; exact b2), ?_⟩
  apply nat_eq_of_close
  have h := roundScaled_close n d hd E
  have e : (n : ℚ) / d / 2 ^ E = M := by
    rw [hval, mul_div_assoc, div_self (ne_of_gt (two_zpow_pos E)), mul_one]
  rw [e] at h
  exact h

theorem round53_exact (n d M : Nat) (E : Int) (hn : 0 < n) (hd : 0 < d)
    (hM1 : 2 ^ 52 ≤ M) (hM2 : M < 2 ^ 53) (hval : (n : ℚ) / d = (M : ℚ) * 2 ^ E) :
    round53 n d = .finite M E := by
  obtain ⟨he, hm⟩ := rounding_exact n d M E hn hd hM1 hM2 hval
  have hn0 : n ≠ 0 := Nat.pos_iff_ne_zero.mp hn
  have h52 : E + 52 - 52 = E := by ring
  have h53 : M ≠ 2 ^ 53 := by omega
  simp only [round53, hn0, if_false, he, h52, hm]
  rw [if_neg h53]

theorem roundFloat64_exact (n d M : Nat) (E : Int) (hn : 0 < n) (hd : 0 < d)
    (hM1 : 2 ^ 52 ≤ M) (hM2 : M < 2 ^ 53) (hval : (n : ℚ) / d = (M : ℚ) * 2 ^ E)
    (hE1 : -1074 ≤ E) (hE2 : E < 972) :
    roundFloat64 n d = .finite M E := by
  obtain ⟨he, hm⟩ := rounding_exact n d M E hn hd hM1 hM2 hval
  have hn0 : n ≠ 0 := Nat.pos_iff_ne_zero.mp hn
  have h52 : max (E + 52 - 52) (-1074) = E := by
    rw [show E + 52 - 52 = E by ring]
    exact max_eq_left hE1
  have h1 : M ≠ 2 ^ 53 := by omega
  have h2 : M ≠ 0 := by omega
  have h3 : ¬ (972 ≤ E) := by omega
  simp only [roundFloat64, hn0, if_false, he, h52, hm]
  rw [if_neg h2, if_neg h1, if_neg h3]

theorem Float64.num_div_den (M : Nat) (E : Int) :
    ((Float64.num M E : Nat) : ℚ) / ((Float64.den E : Nat) : ℚ) = (M : ℚ) * 2 ^ E := by
  cases E with
  | ofNat k =>
    have h1 : (Int.ofNat k).toNat = k := rfl
    have h2 : (-(Int.ofNat k)).toNat = 0 := by
      cases k <;> rfl
    simp only [Float64.num, Float64.den, h1, h2]
    rw [Int.ofNat_eq_coe, zpow_natCast]
    push_cast
    ring
  | negSucc k =>
    have h1 : (Int.negSucc k).toNat = 0 := rfl
    have h2 : (-(Int.negSucc k)).toNat = k + 1 := rfl
    have hz : (2 : ℚ) ^ (Int.negSucc k) = (2 ^ (k + 1))⁻¹ := by
      rw [Int.negSucc_eq, zpow_neg]
      congr 1
      have : ((k : Int) + 1) = ((k + 1 : Nat) : Int) := by push_cast; ring
      rw [this, zpow_natCast]
    simp only [Float64.num, Float64.den, h1, h2, hz]
    push_cast
    ring

theorem Float64.num_pos (M : Nat) (E : Int) (hM : 0 < M) : 0 < Float64.num M E := by
  simp only [Float64.num]
  positivity

theorem Float64.den_pos (E : Int) : 0 < Float64.den E := by
  simp only [Float64.den]
  positivity

/-- A positive integer below `2 ^ 53` is a normalised 53-bit value. -/
theorem exists_normalized (c : Nat) (h0 : 0 < c) (h53 : c < 2 ^ 53) :
    ∃ (M : Nat) (E : Int), 2 ^ 52 ≤ M ∧ M < 2 ^ 53 ∧ (M : ℚ) * 2 ^ E = c ∧ -52 ≤ E ∧ E ≤ 0 := by
  obtain ⟨h1, h2⟩ := floorLog2_spec c h0
  have hl : floorLog2 c ≤ 52 := by
    have : 2 ^ floorLog2 c < 2 ^ 53 := lt_of_le_of_lt h1 h53
    have := (Nat.pow_lt_pow_iff_right (by norm_num : 1 < 2)).mp this
    omega
  have hsplit : 2 ^ floorLog2 c * 2 ^ (52 - floorLog2 c) = 2 ^ 52 := by
    rw [← pow_add]
    congr 1
    omega
  have hsplit' : 2 ^ (floorLog2 c + 1) * 2 ^ (52 - floorLog2 c) = 2 ^ 53 := by
    rw [← pow_add]
    congr 1
    omega
  refine ⟨c * 2 ^ (52 - floorLog2 c), -((52 - floorLog2 c : Nat) : Int), ?_, ?_, ?_, ?_, ?_⟩
  · rw [← hsplit]
    exact Nat.mul_le_mul_right _ h1
  · rw [← hsplit']
    exact Nat.mul_lt_mul_of_pos_right h2 (by positivity)
  · rw [zpow_neg, zpow_natCast]
    push_cast
    field_simp
  · omega
  · omega

theorem toFloat64_normal (M : Nat) (E : Int) (hM1 : 2 ^ 52 ≤ M) (hM2 : M < 2 ^ 53)
    (hE1 : -1074 ≤ E) (hE2 : E < 972) :
    BigFloat.toFloat64 (.finite M E) = .finite M E := by
  have hM0 : 0 < M := by omega
  exact roundFloat64_exact _ _ M E (Float64.num_pos M E hM0) (Float64.den_pos E) hM1 hM2 (Float64.num_div_den M E) hE1 hE2

theorem roundFloat64_one : roundFloat64 1 1 = .finite (2 ^ 52) (-52) := by decide

theorem mul_one_left (M : Nat) (E : Int) (hM1 : 2 ^ 52 ≤ M) (hM2 : M < 2 ^ 53)
    (hE1 : -1074 ≤ E) (hE2 : E < 972) :
    (Float64.finite (2 ^ 52) (-52)).mul (.finite M E) = .finite M E := by
  have hM0 : 0 < M := by omega
  simp only [Float64.mul]
  apply roundFloat64_exact _ _ M E (Nat.mul_pos (Float64.num_pos _ _ (by norm_num)) (Float64.num_pos M E hM0))
    (Nat.mul_pos (Float64.den_pos _) (Float64.den_pos E)) hM1 hM2 _ hE1 hE2
  have h1 := Float64.num_div_den 4503599627370496 (-52)
  have h2 := Float64.num_div_den M E
  have hd1 : ((Float64.den (-52) : Nat) : ℚ) ≠ 0 := by exact_mod_cast (ne_of_gt (Float64.den_pos _))
  have hd2 : ((Float64.den E : Nat) : ℚ) ≠ 0 := by exact_mod_cast (ne_of_gt (Float64.den_pos _))
  push_cast
  rw [mul_div_mul_comm, h1, h2]
  norm_num

/-- For `d ≤ 22` the `float64` power of ten is the exact power of ten. -/
theorem Pow10_exact (d : Nat) (hd : d ≤ 22) :
    ∃ (M : Nat) (E : Int), Pow10 d = .finite M E ∧ 2 ^ 52 ≤ M ∧ M < 2 ^ 53 ∧
      (M : ℚ) * 2 ^ E = 10 ^ d := by
  have h5 : 5 ^ d < 2 ^ 53 :=
    lt_of_le_of_lt (Nat.pow_le_pow_right (by norm_num) hd) (by norm_num)
  obtain ⟨M, E, hM1, hM2, hval, hE1, hE2⟩ := exists_normalized (5 ^ d) (by positivity) h5
  have hval' : (M : ℚ) * 2 ^ (E + d) = 10 ^ d := by
    rw [two_zpow_add, ← mul_assoc, hval, zpow_natCast]
    push_cast
    rw [← mul_pow]
    norm_num
  have htab : pow10tab d = .finite M (E + d) := by
    simp only [pow10tab]
    apply roundFloat64_exact _ _ M (E + d) (by positivity) (by norm_num) hM1 hM2 _
      (by omega) (by omega)
    rw [hval']
    push_cast
    ring
  refine ⟨M, E + d, ?_, hM1, hM2, hval'⟩
  have h0 : d / 32 = 0 := by omega
  have h1 : d % 32 = d := by omega
  have hle : d ≤ 308 := by omega
  simp only [Pow10, hle, if_true, h0, h1, pow10postab32, htab]
  rw [show (10 : Nat) ^ (32 * 0) = 1 by norm_num, roundFloat64_one]
  exact mul_one_left M (E + d) hM1 hM2 (by omega) (by omega)

/-- The amount expression is exact when the raw amount `k * 10 ^ d` is below
`2 ^ 53` and `d ≤ 22`. -/
theorem scaleAmount_exact (k d : Nat) (hd : d ≤ 22) (hk : k * 10 ^ d < 2 ^ 53) :
    (scaleAmount (k * 10 ^ d) d).toRat? = some (k : ℚ) := by
  obtain ⟨Mp, Ep, hp, hp1, hp2, hpval⟩ := Pow10_exact d hd
  have hMp0 : Mp ≠ 0 := by omega
  have h10 : 0 < 10 ^ d := by positivity
  rcases Nat.eq_zero_or_pos k with hk0 | hk0
  · subst hk0
    have hz : round53 0 1 = .finite 0 0 := by decide
    have hz2 : roundFloat64 0 1 = .finite 0 0 := by decide
    simp only [scaleAmount, BigFloat.SetInt, BigFloat.SetFloat64, hp, Nat.zero_mul, hz,
      BigFloat.Quo, hMp0, if_false, Float64.num, Nat.zero_mul, round53, if_true,
      BigFloat.toFloat64, roundFloat64, Float64.toRat?]
    norm_num
  · have ha0 : 0 < k * 10 ^ d := Nat.mul_pos hk0 h10
    have hk53 : k < 2 ^ 53 := lt_of_le_of_lt (Nat.le_mul_of_pos_right k h10) hk
    obtain ⟨Ma, Ea, ha1, ha2, haval, _, _⟩ := exists_normalized (k * 10 ^ d) ha0 hk
    obtain ⟨Mk, Ek, hk1, hk2, hkval, hEk1, hEk2⟩ := exists_normalized k hk0 hk53
    have hset : BigFloat.SetInt (k * 10 ^ d) = .finite Ma Ea := by
      simp only [BigFloat.SetInt]
      apply round53_exact _ _ Ma Ea ha0 (by norm_num) ha1 ha2
      rw [haval]
      push_cast
      ring
    have hquo : BigFloat.Quo (.finite Ma Ea) (.finite Mp Ep) = .finite Mk Ek := by
      simp only [BigFloat.Quo, hMp0, if_false]
      apply round53_exact _ _ Mk Ek
        (Nat.mul_pos (Float64.num_pos _ _ (by omega)) (Float64.den_pos _))
        (Nat.mul_pos (Float64.den_pos _) (Float64.num_pos _ _ (by omega))) hk1 hk2
      have h1 := Float64.num_div_den Ma Ea
      have h2 := Float64.num_div_den Mp Ep
      have hdp : ((Float64.den Ep : Nat) : ℚ) ≠ 0 := by exact_mod_cast (ne_of_gt (Float64.den_pos _))
      have hda : ((Float64.den Ea : Nat) : ℚ) ≠ 0 := by exact_mod_cast (ne_of_gt (Float64.den_pos _))
      have hnp : ((Float64.num Mp Ep : Nat) : ℚ) ≠ 0 := by
        exact_mod_cast (ne_of_gt (Float64.num_pos _ _ (by omega)))
      have e : (((Float64.num Ma Ea * Float64.den Ep : Nat) : ℚ) /
          ((Float64.den Ea * Float64.num Mp Ep : Nat) : ℚ)) =
          (((Float64.num Ma Ea : Nat) : ℚ) / ((Float64.den Ea : Nat) : ℚ)) /
            (((Float64.num Mp Ep : Nat) : ℚ) / ((Float64.den Ep : Nat) : ℚ)) := by
        push_cast
        field_simp
      rw [e, h1, h2, haval, hpval, hkval]
      push_cast
      field_simp
    simp only [scaleAmount, hset, BigFloat.SetFloat64, hp, hquo]
    rw [toFloat64_normal Mk Ek hk1 hk2 (by omega) (by omega)]
    simp only [Float64.toRat?]
    rw [Float64.num_div_den, hkval]

theorem binExp_range (n d : Nat) (hn : 0 < n) (hd : 0 < d) (lo hi : Int)
    (h1 : (2 : ℚ) ^ lo ≤ (n : ℚ) / d) (h2 : (n : ℚ) / d < 2 ^ hi) :
    lo ≤ binExp n d ∧ binExp n d < hi := by
  obtain ⟨b1, b2⟩ := binExp_spec n d hn hd
  have ha : lo < binExp n d + 1 := (two_zpow_lt_iff _ _).mp (lt_of_le_of_lt h1 b2)
  have hb : binExp n d < hi := (two_zpow_lt_iff _ _).mp (lt_of_le_of_lt b1 h2)
  omega

/-- The rounded mantissa at the binary exponent of the quotient. -/
theorem roundScaled_binExp (n d : Nat) (hn : 0 < n) (hd : 0 < d) :
    2 ^ 52 ≤ roundScaled n d (binExp n d - 52) ∧
    roundScaled n d (binExp n d - 52) ≤ 2 ^ 53 ∧
    |(roundScaled n d (binExp n d - 52) : ℚ) * 2 ^ (binExp n d - 52) - (n : ℚ) / d|
      ≤ (n : ℚ) / d / 2 ^ 53 := by
  obtain ⟨b1, b2⟩ := binExp_spec n d hn hd
  have hclose := roundScaled_close n d hd (binExp n d - 52)
  have hp := two_zpow_pos (binExp n d - 52)
  have e1 : (2 : ℚ) ^ binExp n d = 2 ^ 52 * 2 ^ (binExp n d - 52) := by
    rw [two_zpow_sub]
    field_simp
    ring
  have e2 : (2 : ℚ) ^ (binExp n d + 1) = 2 ^ 53 * 2 ^ (binExp n d - 52) := by
    rw [two_zpow_sub, two_zpow_add]
    field_simp
    ring
  rw [e1] at b1
  rw [e2] at b2
  generalize (2 : ℚ) ^ (binExp n d - 52) = w at hclose hp b1 b2 ⊢
  generalize (n : ℚ) / d = q at hclose b1 b2 ⊢
  generalize roundScaled n d (binExp n d - 52) = m at hclose ⊢
  have hs1 : (2 : ℚ) ^ 52 ≤ q / w := by rw [le_div_iff₀ hp]; exact b1
  have hs2 : q / w < (2 : ℚ) ^ 53 := by rw [div_lt_iff₀ hp]; exact b2
  rw [abs_le] at hclose
  have hm1 : ((2 ^ 52 : Nat) : ℚ) < (m : ℚ) + 1 := by push_cast; linarith [hclose.1]
  have hm2 : (m : ℚ) < ((2 ^ 53 : Nat) : ℚ) + 1 := by push_cast; linarith [hclose.2]
  have hm1' : 2 ^ 52 < m + 1 := by exact_mod_cast hm1
  have hm2' : m < 2 ^ 53 + 1 := by exact_mod_cast hm2
  refine ⟨by omega, by omega, ?_⟩
  have hq : q / w * w = q := by field_simp
  have hw : w / 2 ≤ q / 2 ^ 53 := by
    rw [div_le_div_iff₀ (by norm_num) (by norm_num)]
    linarith
  generalize q / w = s at hclose hq
  rw [abs_le]
  constructor
  · have : (s - 1 / 2) * w ≤ (m : ℚ) * w :=
      mul_le_mul_of_nonneg_right (by linarith [hclose.1]) (le_of_lt hp)
    linarith
  · have : (m : ℚ) * w ≤ (s + 1 / 2) * w :=
      mul_le_mul_of_nonneg_right (by linarith [hclose.2]) (le_of_lt hp)
    linarith

/-- The rounding to 53 bits: the result is normalised and within relative
error `2 ^ (-53)`. -/
theorem round53_spec (n d : Nat) (hn : 0 < n) (hd : 0 < d) :
    ∃ (M : Nat) (E : Int), round53 n d = .finite M E ∧ 2 ^ 52 ≤ M ∧ M < 2 ^ 53 ∧
      (E = binExp n d - 52 ∨ E = binExp n d - 51) ∧
      |(M : ℚ) * 2 ^ E - (n : ℚ) / d| ≤ (n : ℚ) / d / 2 ^ 53 := by
  obtain ⟨h1, h2, h3⟩ := roundScaled_binExp n d hn hd
  have hn0 : n ≠ 0 := Nat.pos_iff_ne_zero.mp hn
  by_cases hm : roundScaled n d (binExp n d - 52) = 2 ^ 53
  · refine ⟨2 ^ 52, binExp n d - 51, ?_, le_refl _, by norm_num, Or.inr rfl, ?_⟩
    · simp only [round53, hn0, if_false]
      rw [if_pos hm]
    · rw [hm] at h3
      have e : ((2 ^ 52 : Nat) : ℚ) * 2 ^ (binExp n d - 51) =
          ((2 ^ 53 : Nat) : ℚ) * 2 ^ (binExp n d - 52) := by
        rw [show binExp n d - 51 = (binExp n d - 52) + 1 by ring, two_zpow_add]
        push_cast
        ring
      rw [e]
      exact h3
  · refine ⟨roundScaled n d (binExp n d - 52), binExp n d - 52, ?_, h1, ?_, Or.inl rfl, h3⟩
    · simp only [round53, hn0, if_false]
      rw [if_neg hm]
    · omega

theorem roundFloat64_eq_round53 (n d : Nat) (hn : 0 < n) (hd : 0 < d)
    (hlo : -1022 ≤ binExp n d) (hhi : binExp n d ≤ 1022) :
    roundFloat64 n d = round53 n d := by
  obtain ⟨h1, _, _⟩ := roundScaled_binExp n d hn hd
  have hn0 : n ≠ 0 := Nat.pos_iff_ne_zero.mp hn
  have hmax : max (binExp n d - 52) (-1074) = binExp n d - 52 := max_eq_left (by omega)
  have hm0 : roundScaled n d (binExp n d - 52) ≠ 0 := by omega
  have hq1 : ¬ (972 ≤ binExp n d - 52 + 1) := by omega
  have hq2 : ¬ (972 ≤ binExp n d - 52) := by omega
  simp only [roundFloat64, round53, hn0, if_false, hmax]
  rw [if_neg hm0, if_neg hq1, if_neg hq2]
  split
  · congr 1
    ring
  · rfl

/-- Three roundings, each within relative error `u`, of numerator, denominator
and quotient leave the quotient within relative error `4 * u`. -/
theorem quotient_error (a P X Y Q u : ℚ) (ha : 0 < a) (hP : 0 < P) (hu0 : 0 ≤ u)
    (hu : u ≤ 1 / 5) (hX : |X - a| ≤ a * u) (hY : |Y - P| ≤ P * u)
    (hQ : |Q - X / Y| ≤ X / Y * u) :
    |Q - a / P| ≤ a / P * (4 * u) ∧ a / P * (1 - u) ≤ X / Y * (1 + u) ∧
      X / Y * (1 - u) ≤ a / P * (1 + u) := by
  rw [abs_le] at hX hY hQ
  have hY0 : 0 < Y := by nlinarith [hY.1]
  have hk : a = a / P * P := by field_simp
  have hr : X = X / Y * Y := by field_simp
  generalize a / P = k at hk ⊢
  generalize X / Y = r at hr hQ ⊢
  have hk0 : 0 < k := by
    by_contra h
    push_neg at h
    nlinarith
  have h1u : 0 < 1 - u := by linarith
  -- r * (1 - u) ≤ k * (1 + u)
  have hup : r * (1 - u) ≤ k * (1 + u) := by
    have hr0 : 0 ≤ r ∨ r < 0 := le_or_lt 0 r
    rcases hr0 with hr0 | hr0
    · have : r * (P * (1 - u)) ≤ k * P * (1 + u) := by
        calc r * (P * (1 - u)) ≤ r * Y := mul_le_mul_of_nonneg_left (by linarith [hY.1]) hr0
          _ = X := hr.symm
          _ ≤ a + a * u := by linarith [hX.2]
          _ = k * P * (1 + u) := by rw [hk]; ring
      have : (r * (1 - u)) * P ≤ (k * (1 + u)) * P := by linarith
      exact le_of_mul_le_mul_right this hP
    · nlinarith
  -- k * (1 - u) ≤ r * (1 + u)
  have hlow : k * (1 - u) ≤ r * (1 + u) := by
    have : k * P * (1 - u) ≤ r * (P * (1 + u)) := by
      have hr0 : 0 ≤ r := by
        by_contra h
        push_neg at h
        nlinarith [hX.1]
      calc k * P * (1 - u) = a - a * u := by rw [hk]; ring
        _ ≤ X := by linarith [hX.1]
        _ = r * Y := hr
        _ ≤ r * (P * (1 + u)) := mul_le_mul_of_nonneg_left (by linarith [hY.2]) hr0
    have : (k * (1 - u)) * P ≤ (r * (1 + u)) * P := by linarith
    exact le_of_mul_le_mul_right this hP
  refine ⟨?_, hlow, hup⟩
  rw [abs_le]
  constructor
  · -- Q ≥ r (1 - u) ≥ k (1-u)^2/(1+u) ≥ k (1 - 4u)
    have h1 : r * (1 - u) ≤ Q := by linarith [hQ.1]
    have h2 : (k * (1 - 4 * u)) * (1 + u) ≤ (r * (1 - u)) * (1 + u) := by
      have : k * (1 - u) * (1 - u) ≤ r * (1 + u) * (1 - u) :=
        mul_le_mul_of_nonneg_right hlow (le_of_lt h1u)
      nlinarith [mul_nonneg (le_of_lt hk0) hu0, mul_nonneg (mul_nonneg (le_of_lt hk0) hu0) hu0]
    have h3 := le_of_mul_le_mul_right h2 (by linarith : (0 : ℚ) < 1 + u)
    linarith
  · have h1 : Q ≤ r * (1 + u) := by linarith [hQ.2]
    have h2 : (r * (1 + u)) * (1 - u) ≤ (k * (1 + 4 * u)) * (1 - u) := by
      have : r * (1 - u) * (1 + u) ≤ k * (1 + u) * (1 + u) :=
        mul_le_mul_of_nonneg_right hup (by linarith)
      nlinarith [mul_nonneg (le_of_lt hk0) hu0, mul_nonneg (mul_nonneg (le_of_lt hk0) hu0) hu0,
        mul_nonneg (mul_nonneg (le_of_lt hk0) hu0) (by linarith : (0 : ℚ) ≤ 1 / 5 - u)]
    have h3 := le_of_mul_le_mul_right h2 h1u
    linarith

/-- For `d ≤ 30` the `float64` power of ten is normalised and within relative
error `2 ^ (-53)` of the power of ten. -/
theorem Pow10_spec (d : Nat) (hd : d ≤ 30) :
    ∃ (M : Nat) (E : Int), Pow10 d = .finite M E ∧ 2 ^ 52 ≤ M ∧ M < 2 ^ 53 ∧
      |(M : ℚ) * 2 ^ E - 10 ^ d| ≤ 10 ^ d / 2 ^ 53 := by
  have hpos : 0 < 10 ^ d := by positivity
  have hq : (((10 ^ d : Nat) : ℚ) / ((1 : Nat) : ℚ)) = 10 ^ d := by push_cast; ring
  have hup : (10 : ℚ) ^ d < 2 ^ (100 : Int) := by
    have h1 : (10 : ℚ) ^ d ≤ 10 ^ 30 := pow_le_pow_right₀ (by norm_num) hd
    have h2 : (10 : ℚ) ^ 30 < 2 ^ (100 : Int) := by norm_num
    exact lt_of_le_of_lt h1 h2
  have hlow : (2 : ℚ) ^ (0 : Int) ≤ 10 ^ d := by
    rw [zpow_zero]
    exact one_le_pow₀ (by norm_num)
  obtain ⟨he1, he2⟩ := binExp_range (10 ^ d) 1 hpos (by norm_num) 0 100
    (by rw [hq]; exact hlow) (by rw [hq]; exact hup)
  obtain ⟨M, E, hr, hM1, hM2, hE, herr⟩ := round53_spec (10 ^ d) 1 hpos (by norm_num)
  rw [hq] at herr
  have htab : pow10tab d = .finite M E := by
    simp only [pow10tab]
    rw [roundFloat64_eq_round53 _ _ hpos (by norm_num) (by omega) (by omega), hr]
  refine ⟨M, E, ?_, hM1, hM2, herr⟩
  have h0 : d / 32 = 0 := by omega
  have h1 : d % 32 = d := by omega
  have hle : d ≤ 308 := by omega
  simp only [Pow10, hle, if_true, h0, h1, pow10postab32, htab]
  rw [show (10 : Nat) ^ (32 * 0) = 1 by norm_num, roundFloat64_one]
  exact mul_one_left M E hM1 hM2 (by omega) (by omega)

/-- The amount expression on `k * 10 ^ d` with `k ≤ 10 ^ 9` and `d ≤ 30` is
finite and within `k / 2 ^ 51` of `k`. -/
theorem scaleAmount_close (k d : Nat) (hk : k ≤ 10 ^ 9) (hd : d ≤ 30) :
    ∃ v : ℚ, (scaleAmount (k * 10 ^ d) d).toRat? = some v ∧ |v - (k : ℚ)| ≤ (k : ℚ) / 2 ^ 51 := by
  obtain ⟨Mp, Ep, hp, hp1, hp2, hperr⟩ := Pow10_spec d hd
  have hMp0 : Mp ≠ 0 := by omega
  have h10 : 0 < 10 ^ d := by positivity
  rcases Nat.eq_zero_or_pos k with hk0 | hk0
  · subst hk0
    refine ⟨0, ?_, by norm_num⟩
    have hz : round53 0 1 = .finite 0 0 := by decide
    simp only [scaleAmount, BigFloat.SetInt, BigFloat.SetFloat64, hp, Nat.zero_mul, hz,
      BigFloat.Quo, hMp0, if_false, Float64.num, Nat.zero_mul, round53, if_true,
      BigFloat.toFloat64, roundFloat64, Float64.toRat?]
    norm_num
  · have ha0 : 0 < k * 10 ^ d := Nat.mul_pos hk0 h10
    obtain ⟨Ma, Ea, ha, ha1, ha2, _, haerr⟩ := round53_spec (k * 10 ^ d) 1 ha0 (by norm_num)
    have hnum0 : 0 < Float64.num Ma Ea * Float64.den Ep :=
      Nat.mul_pos (Float64.num_pos _ _ (by omega)) (Float64.den_pos _)
    have hden0 : 0 < Float64.den Ea * Float64.num Mp Ep :=
      Nat.mul_pos (Float64.den_pos _) (Float64.num_pos _ _ (by omega))
    obtain ⟨Mq, Eq, hq, hq1, hq2, hEq, hqerr⟩ := round53_spec _ _ hnum0 hden0
    -- the quotient of the two rounded values
    have hratio : (((Float64.num Ma Ea * Float64.den Ep : Nat) : ℚ) /
        ((Float64.den Ea * Float64.num Mp Ep : Nat) : ℚ)) =
        ((Ma : ℚ) * 2 ^ Ea) / ((Mp : ℚ) * 2 ^ Ep) := by
      have h1 := Float64.num_div_den Ma Ea
      have h2 := Float64.num_div_den Mp Ep
      have hdp : ((Float64.den Ep : Nat) : ℚ) ≠ 0 := by exact_mod_cast (ne_of_gt (Float64.den_pos _))
      have hda : ((Float64.den Ea : Nat) : ℚ) ≠ 0 := by exact_mod_cast (ne_of_gt (Float64.den_pos _))
      have hnp : ((Float64.num Mp Ep : Nat) : ℚ) ≠ 0 := by
        exact_mod_cast (ne_of_gt (Float64.num_pos _ _ (by omega)))
      rw [← h1, ← h2]
      push_cast
      field_simp
    have hkq : (1 : ℚ) ≤ k := by exact_mod_cast hk0
    have hkq9 : (k : ℚ) ≤ 10 ^ 9 := by exact_mod_cast hk
    have hPq : (0 : ℚ) < 10 ^ d := by positivity
    have haq : (0 : ℚ) < (k : ℚ) * 10 ^ d := by positivity
    have hX : |(Ma : ℚ) * 2 ^ Ea - (k : ℚ) * 10 ^ d| ≤ (k : ℚ) * 10 ^ d * (1 / 2 ^ 53) := by
      have e : (((k * 10 ^ d : Nat) : ℚ) / ((1 : Nat) : ℚ)) = (k : ℚ) * 10 ^ d := by
        push_cast; ring
      rw [e] at haerr
      rw [mul_one_div]
      exact haerr
    have hY : |(Mp : ℚ) * 2 ^ Ep - 10 ^ d| ≤ 10 ^ d * (1 / 2 ^ 53) := by
      rw [mul_one_div]
      exact hperr
    rw [hratio] at hqerr
    have hQ : |(Mq : ℚ) * 2 ^ Eq - (Ma : ℚ) * 2 ^ Ea / ((Mp : ℚ) * 2 ^ Ep)| ≤
        (Ma : ℚ) * 2 ^ Ea / ((Mp : ℚ) * 2 ^ Ep) * (1 / 2 ^ 53) := by
      rw [mul_one_div]
      exact hqerr
    obtain ⟨herr, hlo, hhi⟩ := quotient_error ((k : ℚ) * 10 ^ d) (10 ^ d) _ _ _ (1 / 2 ^ 53)
      haq hPq (by positivity) (by norm_num) hX hY hQ
    have hkk : (k : ℚ) * 10 ^ d / 10 ^ d = k := by field_simp
    rw [hkk] at herr hlo hhi
    -- the exponent of the quotient
    have hr1 : (2 : ℚ) ^ (-1 : Int) ≤ (Ma : ℚ) * 2 ^ Ea / ((Mp : ℚ) * 2 ^ Ep) := by
      have : (2 : ℚ) ^ (-1 : Int) = 1 / 2 := by norm_num
      rw [this]
      have h53 : (1 : ℚ) + 1 / 2 ^ 53 ≤ 2 - 2 / 2 ^ 53 := by norm_num
      nlinarith
    have hr2 : (Ma : ℚ) * 2 ^ Ea / ((Mp : ℚ) * 2 ^ Ep) < 2 ^ (31 : Int) := by
      have : (2 : ℚ) ^ (31 : Int) = 2147483648 := by norm_num
      rw [this]
      have h1 : (Ma : ℚ) * 2 ^ Ea / ((Mp : ℚ) * 2 ^ Ep) * (1 - 1 / 2 ^ 53) ≤
          10 ^ 9 * (1 + 1 / 2 ^ 53) := by
        refine le_trans hhi ?_
        exact mul_le_mul_of_nonneg_right hkq9 (by norm_num)
      by_contra hcon
      push_neg at hcon
      have h2 : (2147483648 : ℚ) * (1 - 1 / 2 ^ 53) ≤
          (Ma : ℚ) * 2 ^ Ea / ((Mp : ℚ) * 2 ^ Ep) * (1 - 1 / 2 ^ 53) :=
        mul_le_mul_of_nonneg_right hcon (by norm_num)
      have h3 : (10 : ℚ) ^ 9 * (1 + 1 / 2 ^ 53) < 2147483648 * (1 - 1 / 2 ^ 53) := by norm_num
      linarith
    rw [← hratio] at hr1 hr2
    obtain ⟨he1, he2⟩ := binExp_range _ _ hnum0 hden0 (-1) 31 hr1 hr2
    have hquo : BigFloat.Quo (.finite Ma Ea) (.finite Mp Ep) = .finite Mq Eq := by
      simp only [BigFloat.Quo, hMp0, if_false]
      exact hq
    refine ⟨(Mq : ℚ) * 2 ^ Eq, ?_, ?_⟩
    · simp only [scaleAmount, BigFloat.SetInt, ha, BigFloat.SetFloat64, hp, hquo]
      rw [toFloat64_normal Mq Eq hq1 hq2 (by omega) (by omega)]
      simp only [Float64.toRat?]
      rw [Float64.num_div_den]
    · have e : (k : ℚ) * (4 * (1 / 2 ^ 53)) = (k : ℚ) / 2 ^ 51 := by
        field_simp
        ring
      rw [← e]
      exact herr

/-! ## Rounding to the nearest 53-bit value: facts -/

/-- The rounding to 53 bits is within half a unit in the last place. -/
theorem round53_half_ulp (n d : Nat) (hn : 0 < n) (hd : 0 < d) :
    ∃ (M : Nat) (E : Int), round53 n d = .finite M E ∧ 2 ^ 52 ≤ M ∧ M < 2 ^ 53 ∧
      (E = binExp n d - 52 ∨ E = binExp n d - 51) ∧
      |(M : ℚ) * 2 ^ E - (n : ℚ) / d| ≤ 2 ^ E / 2 ∧
      |(M : ℚ) * 2 ^ E - (n : ℚ) / d| ≤ (n : ℚ) / d / 2 ^ 53 := by
  obtain ⟨h1, h2, h3⟩ := roundScaled_binExp n d hn hd
  have hclose := roundScaled_close n d hd (binExp n d - 52)
  have hp := two_zpow_pos (binExp n d - 52)
  have hn0 : n ≠ 0 := Nat.pos_iff_ne_zero.mp hn
  have hhalf : |(roundScaled n d (binExp n d - 52) : ℚ) * 2 ^ (binExp n d - 52) - (n : ℚ) / d|
      ≤ 2 ^ (binExp n d - 52) / 2 := by
    have hq : (n : ℚ) / d / 2 ^ (binExp n d - 52) * 2 ^ (binExp n d - 52) = (n : ℚ) / d :=
      div_mul_cancel₀ _ (ne_of_gt hp)
    generalize (2 : ℚ) ^ (binExp n d - 52) = w at hclose hp hq ⊢
    generalize (n : ℚ) / d = q at hclose hq ⊢
    generalize (roundScaled n d (binExp n d - 52) : ℚ) = m at hclose ⊢
    generalize q / w = s at hclose hq
    rw [abs_le] at hclose ⊢
    constructor
    · have : (s - 1 / 2) * w ≤ m * w :=
        mul_le_mul_of_nonneg_right (by linarith [hclose.1]) (le_of_lt hp)
      linarith
    · have : m * w ≤ (s + 1 / 2) * w :=
        mul_le_mul_of_nonneg_right (by linarith [hclose.2]) (le_of_lt hp)
      linarith
  by_cases hm : roundScaled n d (binExp n d - 52) = 2 ^ 53
  · refine ⟨2 ^ 52, binExp n d - 51, ?_, le_refl _, by norm_num, Or.inr rfl, ?_, ?_⟩
    · simp only [round53, hn0, if_false]
      rw [if_pos hm]
    · rw [hm] at hhalf
      have e : ((2 ^ 52 : Nat) : ℚ) * 2 ^ (binExp n d - 51) =
          ((2 ^ 53 : Nat) : ℚ) * 2 ^ (binExp n d - 52) := by
        rw [show binExp n d - 51 = (binExp n d - 52) + 1 by ring, two_zpow_add]
        push_cast
        ring
      have e2 : (2 : ℚ) ^ (binExp n d - 51) = 2 ^ (binExp n d - 52) * 2 := by
        rw [show binExp n d - 51 = (binExp n d - 52) + 1 by ring, two_zpow_add]
        norm_num
      rw [e, e2]
      refine le_trans hhalf ?_
      linarith
    · rw [hm] at h3
      have e : ((2 ^ 52 : Nat) : ℚ) * 2 ^ (binExp n d - 51) =
          ((2 ^ 53 : Nat) : ℚ) * 2 ^ (binExp n d - 52) := by
        rw [show binExp n d - 51 = (binExp n d - 52) + 1 by ring, two_zpow_add]
        push_cast
        ring
      rw [e]
      exact h3
  · refine ⟨roundScaled n d (binExp n d - 52), binExp n d - 52, ?_, h1, ?_, Or.inl rfl,
      hhalf, h3⟩
    · simp only [round53, hn0, if_false]
      rw [if_neg hm]
    · omega

set_option maxRecDepth 100000 in
theorem Pow10_zero : Pow10 0 = .finite (2 ^ 52) (-52) := by decide

theorem scaleAmount_zero_zero : scaleAmount 0 0 = BigFloat.SetInt 0 := by
  rw [show scaleAmount 0 0 = BigFloat.toFloat64
    (BigFloat.Quo (BigFloat.SetInt 0) (BigFloat.SetFloat64 (Pow10 0))) from rfl, Pow10_zero]
  decide

/-- With 0 decimals the amount expression is the rounding of the raw amount to
53 bits, for every raw amount a `uint256` can hold. -/
theorem scaleAmount_zero_decimals (a : Nat) (ha : a < 2 ^ 256) :
    scaleAmount a 0 = BigFloat.SetInt a := by
  rcases Nat.eq_zero_or_pos a with h0 | h0
  · subst h0
    exact scaleAmount_zero_zero
  · obtain ⟨M, E, hr, hM1, hM2, hE, _, _⟩ := round53_half_ulp a 1 h0 (by norm_num)
    have hq1 : (2 : ℚ) ^ (0 : Int) ≤ ((a : Nat) : ℚ) / ((1 : Nat) : ℚ) := by
      rw [zpow_zero]
      have : (1 : ℚ) ≤ a := by exact_mod_cast h0
      simpa using this
    have hq2 : ((a : Nat) : ℚ) / ((1 : Nat) : ℚ) < 2 ^ (256 : Int) := by
      have h : ((a : Nat) : ℚ) < ((2 ^ 256 : Nat) : ℚ) := by exact_mod_cast ha
      have e : ((2 ^ 256 : Nat) : ℚ) = (2 : ℚ) ^ (256 : Int) := by
        rw [Nat.cast_pow, Nat.cast_ofNat]
        exact (zpow_natCast (2 : ℚ) 256).symm
      rw [e] at h
      rw [Nat.cast_one, div_one]
      exact h
    obtain ⟨he1, he2⟩ := binExp_range a 1 h0 (by norm_num) 0 256 hq1 hq2
    have hM0 : 0 < M := by omega
    have hquo : BigFloat.Quo (.finite M E) (.finite (2 ^ 52) (-52)) = .finite M E := by
      have h52 : (2 ^ 52 : Nat) ≠ 0 := by norm_num
      simp only [BigFloat.Quo, h52, if_false]
      apply round53_exact _ _ M E
        (Nat.mul_pos (Float64.num_pos _ _ hM0) (Float64.den_pos _))
        (Nat.mul_pos (Float64.den_pos _) (Float64.num_pos _ _ (by norm_num))) hM1 hM2
      have h1 := Float64.num_div_den M E
      have h2 := Float64.num_div_den (2 ^ 52) (-52)
      have hd52 : ((Float64.den (-52) : Nat) : ℚ) ≠ 0 := by
        exact_mod_cast (ne_of_gt (Float64.den_pos _))
      have hdE : ((Float64.den E : Nat) : ℚ) ≠ 0 := by
        exact_mod_cast (ne_of_gt (Float64.den_pos _))
      have hn52 : ((Float64.num (2 ^ 52) (-52) : Nat) : ℚ) ≠ 0 := by
        exact_mod_cast (ne_of_gt (Float64.num_pos _ _ (by norm_num)))
      have e : (((Float64.num M E * Float64.den (-52) : Nat) : ℚ) /
          ((Float64.den E * Float64.num (2 ^ 52) (-52) : Nat) : ℚ)) =
          (((Float64.num M E : Nat) : ℚ) / ((Float64.den E : Nat) : ℚ)) /
            (((Float64.num (2 ^ 52) (-52) : Nat) : ℚ) / ((Float64.den (-52) : Nat) : ℚ)) := by
        push_cast
        field_simp
      rw [e, h1, h2]
      have one : (((2 ^ 52 : Nat) : ℚ)) * 2 ^ (-52 : Int) = 1 := by norm_num
      rw [one, div_one]
    simp only [scaleAmount, BigFloat.SetInt, BigFloat.SetFloat64, Pow10_zero, hr, hquo]
    exact toFloat64_normal M E hM1 hM2 (by omega) (by omega)

/-! ## Claims, continued: decimal scaling -/

set_option maxRecDepth 100000 in
/-- C6 fails as stated: for 18 decimals and `k = 759364188` the normalized
volume of `k * 10 ^ 18` is `k - 2 ^ (-23)`, further from `k` than `1e-9`; and
with 0 decimals the raw amount `2 ^ 53 + 1` is normalized to `2 ^ 53`, which is
not the raw amount and is further from it than `1e-9`. -/
theorem scaleAmount_tolerance_fails :
    scaleAmount (759364188 * 10 ^ 18) 18 = .finite 6370008502370303 (-23) ∧
    (Float64.finite 6370008502370303 (-23)).toRat? = some (759364188 - 1 / 2 ^ 23) ∧
    (1 : ℚ) / 10 ^ 9 < |(759364188 - 1 / 2 ^ 23) - 759364188| ∧
    scaleAmount (2 ^ 53 + 1) 0 = .finite (2 ^ 52) 1 ∧
    (Float64.finite (2 ^ 52) 1).toRat? = some (2 ^ 53) ∧
    (2 : ℚ) ^ 53 ≠ ((2 ^ 53 + 1 : Nat) : ℚ) ∧
    (1 : ℚ) / 10 ^ 9 < |2 ^ 53 - ((2 ^ 53 + 1 : Nat) : ℚ)| := by
  refine ⟨by decide, ?_, by norm_num [abs_of_nonneg], by decide, ?_, by norm_num,
    by norm_num [abs_of_nonneg]⟩
  · simp only [Float64.toRat?]
    rw [Float64.num_div_den]
    norm_num
  · simp only [Float64.toRat?]
    rw [Float64.num_div_den]
    norm_num

set_option maxRecDepth 100000 in
/-- C6 as amended: the normalized volume is `float64` arithmetic. For decimals
`d ≤ 30` and raw amount `k * 10 ^ d` with `k ≤ 10 ^ 9` it is a finite `v` with
`|v - k| ≤ k / 2 ^ 51`, hence within relative tolerance `1e-9` and within
absolute tolerance `1e-6` of `k`. If `d ≤ 22` and the raw amount is below
`2 ^ 53` then `v` is `k`; the condition is sufficient, not necessary:
`2 * 10 ^ 18` at 18 decimals, not below `2 ^ 53`, gives 2. For a token address
missing from the registry the decimals used are 0 and the volume of the swap
is the amount expression at 0 decimals; for every raw amount `a` below
`2 ^ 256`, that is for every `uint256`, that is `a` rounded to 53 significant
bits: for positive `a` a value `M * 2 ^ E` with `2 ^ 52 ≤ M < 2 ^ 53` within
half a unit in the last place, `2 ^ E / 2`, of `a`, and within `a / 2 ^ 53`;
it is `a` itself when `a` is below `2 ^ 53`. -/
theorem scaleAmount_decimal_scaling :
    (∀ k d : Nat, d ≤ 30 → k ≤ 10 ^ 9 →
      ∃ v : ℚ, (scaleAmount (k * 10 ^ d) d).toRat? = some v ∧
        |v - (k : ℚ)| ≤ (k : ℚ) / 2 ^ 51 ∧ |v - (k : ℚ)| ≤ (k : ℚ) * (1 / 10 ^ 9) ∧
        |v - (k : ℚ)| ≤ 1 / 10 ^ 6) ∧
    (∀ k d : Nat, d ≤ 22 → k * 10 ^ d < 2 ^ 53 →
      (scaleAmount (k * 10 ^ d) d).toRat? = some (k : ℚ)) ∧
    (2 ^ 53 ≤ 2 * 10 ^ 18 ∧ (scaleAmount (2 * 10 ^ 18) 18).toRat? = some (2 : ℚ)) ∧
    (∀ (scraper : BalancerScraper) (vLog : LogSwap) (now : Int),
      (swapOfLog scraper vLog now).SellVolume = scaleAmount vLog.TokenAmountIn
        (scraper.balancerTokensMap.get vLog.TokenIn).Decimals.val ∧
      (swapOfLog scraper vLog now).BuyVolume = scaleAmount vLog.TokenAmountOut
        (scraper.balancerTokensMap.get vLog.TokenOut).Decimals.val) ∧
    (∀ (scraper : BalancerScraper) (address : String),
      scraper.balancerTokensMap.get? address = none →
      (scraper.balancerTokensMap.get address).Decimals.val = 0) ∧
    (∀ (scraper : BalancerScraper) (vLog : LogSwap) (now : Int),
      (scraper.balancerTokensMap.get? vLog.TokenIn = none →
        (swapOfLog scraper vLog now).SellVolume = scaleAmount vLog.TokenAmountIn 0) ∧
      (scraper.balancerTokensMap.get? vLog.TokenOut = none →
        (swapOfLog scraper vLog now).BuyVolume = scaleAmount vLog.TokenAmountOut 0)) ∧
    (∀ a : Nat, a < 2 ^ 256 →
      scaleAmount a 0 = round53 a 1 ∧
      (0 < a → ∃ (M : Nat) (E : Int), scaleAmount a 0 = .finite M E ∧
        2 ^ 52 ≤ M ∧ M < 2 ^ 53 ∧
        (scaleAmount a 0).toRat? = some ((M : ℚ) * 2 ^ E) ∧
        |(M : ℚ) * 2 ^ E - (a : ℚ)| ≤ 2 ^ E / 2 ∧
        |(M : ℚ) * 2 ^ E - (a : ℚ)| ≤ (a : ℚ) / 2 ^ 53)) ∧
    (∀ a : Nat, a < 2 ^ 53 → (scaleAmount a 0).toRat? = some (a : ℚ)) := by
  refine ⟨?_, ?_, ?_, ?_, ?_, ?_, ?_, ?_⟩
  · intro k d hd hk
    obtain ⟨v, hv, herr⟩ := scaleAmount_close k d hk hd
    have hk0 : (0 : ℚ) ≤ k := by positivity
    have hk9 : (k : ℚ) ≤ 10 ^ 9 := by exact_mod_cast hk
    refine ⟨v, hv, herr, le_trans herr ?_, le_trans herr ?_⟩
    · rw [div_eq_mul_one_div]
      exact mul_le_mul_of_nonneg_left (by norm_num) hk0
    · calc (k : ℚ) / 2 ^ 51 ≤ 10 ^ 9 / 2 ^ 51 := by
            apply div_le_div_of_nonneg_right hk9 (by norm_num)
        _ ≤ 1 / 10 ^ 6 := by norm_num
  · intro k d hd hk
    exact scaleAmount_exact k d hd hk
  · refine ⟨by norm_num, ?_⟩
    have h : scaleAmount (2 * 10 ^ 18) 18 = .finite (2 ^ 52) (-51) := by decide
    rw [h]
    exact scenario_values.1
  · intro scraper vLog now
    exact ⟨rfl, rfl⟩
  · intro scraper address h
    simp [GoMap.get, h]
    rfl
  · intro scraper vLog now
    constructor
    · intro h
      have hd : (scraper.balancerTokensMap.get vLog.TokenIn).Decimals.val = 0 := by
        simp [GoMap.get, h]
        rfl
      show scaleAmount vLog.TokenAmountIn
        (scraper.balancerTokensMap.get vLog.TokenIn).Decimals.val = _
      rw [hd]
    · intro h
      have hd : (scraper.balancerTokensMap.get vLog.TokenOut).Decimals.val = 0 := by
        simp [GoMap.get, h]
        rfl
      show scaleAmount vLog.TokenAmountOut
        (scraper.balancerTokensMap.get vLog.TokenOut).Decimals.val = _
      rw [hd]
  · intro a ha
    have hz := scaleAmount_zero_decimals a ha
    simp only [BigFloat.SetInt] at hz
    refine ⟨hz, ?_⟩
    intro h0
    obtain ⟨M, E, hr, hM1, hM2, _, hhalf, hrel⟩ := round53_half_ulp a 1 h0 (by norm_num)
    have e : (((a : Nat) : ℚ) / ((1 : Nat) : ℚ)) = (a : ℚ) := by simp
    rw [e] at hhalf hrel
    refine ⟨M, E, by rw [hz, hr], hM1, hM2, ?_, hhalf, hrel⟩
    rw [hz, hr]
    simp only [Float64.toRat?]
    rw [Float64.num_div_den]
  · intro a ha
    have := scaleAmount_exact a 0 (by norm_num) (by simpa using ha)
    simpa using this

/-! ## The factory task: facts -/

theorem GoMap.filter_ne_of_get?_none {V : Type} (m : GoMap V) (k : String)
    (h : m.get? k = none) : m.filter (fun e => e.1 != k) = m := by
  induction m with
  | nil => rfl
  | cons e m ih =>
    obtain ⟨a, b⟩ := e
    simp only [GoMap.get?, List.lookup] at h
    cases hka : k == a with
    | true => simp [hka] at h
    | false =>
      simp only [hka] at h
      have hne : ((a, b).1 != k) = true := by
        have : k ≠ a := by simpa using hka
        simpa using fun h' => this h'.symm
      simp only [List.filter, hne]
      rw [ih h]

theorem GoMap.len_set_of_get?_none {V : Type} (m : GoMap V) (k : String) (v : V)
    (h : m.get? k = none) : (m.set k v).len = m.len + 1 := by
  simp [GoMap.len, GoMap.set, GoMap.filter_ne_of_get?_none m k h]

/-! ## Claims, continued: pool discovery -/

/-- C12: when a live factory task handles a creation event, a pool address
already in the pool set leaves the engine, its pool set included, unchanged
and opens no swap subscription; an address not in the pool set is added, every
other key staying as it was, and exactly one swap subscription is opened, for
that address. Hence no key ever leaves the pool set, and handling the same
event twice in a row changes nothing and opens nothing the second time, so
that the two together open at most one subscription. No such event makes the
task send on `resubscribe`. -/
theorem pool_discovery_idempotent (scraper : BalancerScraper) (t : NewPoolsTask)
    (pool : String) (hlive : t.returned = false) :
    (scraper.pools.get? pool ≠ none →
      (NewPoolsTask.iterate scraper t (.log pool)).2.1 = scraper ∧
      (NewPoolsTask.iterate scraper t (.log pool)).2.2.opened = []) ∧
    (scraper.pools.get? pool = none →
      (NewPoolsTask.iterate scraper t (.log pool)).2.1.pools.get? pool = some () ∧
      (∀ k, k ≠ pool →
        (NewPoolsTask.iterate scraper t (.log pool)).2.1.pools.get? k = scraper.pools.get? k) ∧
      (NewPoolsTask.iterate scraper t (.log pool)).2.1.pools.len = scraper.pools.len + 1 ∧
      (NewPoolsTask.iterate scraper t (.log pool)).2.2.opened = [pool]) ∧
    (∀ k, scraper.pools.get? k ≠ none →
      (NewPoolsTask.iterate scraper t (.log pool)).2.1.pools.get? k ≠ none) ∧
    scraper.pools.len ≤ (NewPoolsTask.iterate scraper t (.log pool)).2.1.pools.len ∧
    (NewPoolsTask.iterate (NewPoolsTask.iterate scraper t (.log pool)).2.1
        (NewPoolsTask.iterate scraper t (.log pool)).1 (.log pool)).2.1 =
      (NewPoolsTask.iterate scraper t (.log pool)).2.1 ∧
    (NewPoolsTask.iterate (NewPoolsTask.iterate scraper t (.log pool)).2.1
        (NewPoolsTask.iterate scraper t (.log pool)).1 (.log pool)).2.2.opened = [] ∧
    ((NewPoolsTask.iterate scraper t (.log pool)).2.2.opened ++
      (NewPoolsTask.iterate (NewPoolsTask.iterate scraper t (.log pool)).2.1
        (NewPoolsTask.iterate scraper t (.log pool)).1 (.log pool)).2.2.opened).length ≤ 1 ∧
    (NewPoolsTask.iterate scraper t (.log pool)).2.2.resubscribe = [] := by
  cases hget : scraper.pools.get? pool with
  | some u =>
    have hit : NewPoolsTask.iterate scraper t (.log pool) =
        ({ t with returned := !(scraper.run && t.subscribed) }, scraper, ⟨[], []⟩) := by
      simp [NewPoolsTask.iterate, hlive, hget]
    have hit2 : ∀ t' : NewPoolsTask,
        (NewPoolsTask.iterate scraper t' (.log pool)).2.1 = scraper ∧
        (NewPoolsTask.iterate scraper t' (.log pool)).2.2.opened = [] := by
      intro t'
      cases hr : t'.returned <;> simp [NewPoolsTask.iterate, hr, hget]
    rw [hit]
    refine ⟨?_, ?_, ?_, ?_, ?_, ?_, ?_, ?_⟩
    · intro _
      exact ⟨rfl, rfl⟩
    · intro h
      cases h
    · intro k hk
      exact hk
    · exact le_refl _
    · exact (hit2 _).1
    · exact (hit2 _).2
    · simp [(hit2 _).2]
    · rfl
  | none =>
    have hit : NewPoolsTask.iterate scraper t (.log pool) =
        ({ t with returned := !(scraper.run && t.subscribed) },
          { scraper with pools := scraper.pools.set pool () }, ⟨[pool], []⟩) := by
      simp [NewPoolsTask.iterate, hlive, hget]
    have hnew : ({ scraper with pools := scraper.pools.set pool () } : BalancerScraper).pools.get?
        pool = some () := GoMap.get?_set_self _ _ _
    have hit2 : ∀ t' : NewPoolsTask,
        (NewPoolsTask.iterate { scraper with pools := scraper.pools.set pool () } t'
          (.log pool)).2.1 = { scraper with pools := scraper.pools.set pool () } ∧
        (NewPoolsTask.iterate { scraper with pools := scraper.pools.set pool () } t'
          (.log pool)).2.2.opened = [] := by
      intro t'
      cases hr : t'.returned <;> simp [NewPoolsTask.iterate, hr, hnew]
    rw [hit]
    refine ⟨?_, ?_, ?_, ?_, ?_, ?_, ?_, ?_⟩
    · intro h
      exact absurd rfl h
    · intro _
      refine ⟨hnew, ?_, ?_, rfl⟩
      · intro k hk
        exact GoMap.get?_set_other _ _ _ _ hk
      · exact GoMap.len_set_of_get?_none _ _ _ hget
    · intro k hk
      by_cases hkp : k = pool
      · subst hkp
        simp [hnew]
      · show GoMap.get? (scraper.pools.set pool ()) k ≠ none
        rw [GoMap.get?_set_other _ _ _ _ hkp]
        exact hk
    · show scraper.pools.len ≤ (scraper.pools.set pool ()).len
      rw [GoMap.len_set_of_get?_none _ _ _ hget]
      exact Nat.le_succ _
    · exact (hit2 _).1
    · exact (hit2 _).2
    · simp [(hit2 _).2]
    · rfl

/-- C12 at the engine whose pool set holds `0xPool`: the event for `0xPool`
opens nothing and leaves the engine as it is, the event for `0xNew` adds it
and opens one subscription, and a second event for `0xNew` opens none. -/
theorem pool_discovery_idempotent_witness :
    (NewPoolsTask.start enginePool).returned = false ∧
    (NewPoolsTask.iterate enginePool (NewPoolsTask.start enginePool) (.log "0xPool")).2.1
      = enginePool ∧
    (NewPoolsTask.iterate enginePool (NewPoolsTask.start enginePool) (.log "0xPool")).2.2.opened
      = [] ∧
    (NewPoolsTask.iterate enginePool (NewPoolsTask.start enginePool) (.log "0xNew")).2.2.opened
      = ["0xNew"] ∧
    (NewPoolsTask.iterate enginePool (NewPoolsTask.start enginePool) (.log "0xNew")).2.1.pools.keys
      = ["0xNew", "0xPool"] ∧
    (NewPoolsTask.iterate
      (NewPoolsTask.iterate enginePool (NewPoolsTask.start enginePool) (.log "0xNew")).2.1
      (NewPoolsTask.iterate enginePool (NewPoolsTask.start enginePool) (.log "0xNew")).1
      (.log "0xNew")).2.2.opened = [] := by
  have h := pool_discovery_idempotent enginePool (NewPoolsTask.start enginePool) "0xPool"
    (by decide)
  have h' := pool_discovery_idempotent enginePool (NewPoolsTask.start enginePool) "0xNew"
    (by decide)
  exact ⟨by decide, (h.1 (by decide)).1, (h.1 (by decide)).2, (h'.2.1 (by decide)).2.2.2,
    by decide, h'.2.2.2.2.2.1⟩

/-! ## Subscription tasks and dispatcher: facts -/

theorem swapTask_iterate_err (scraper : BalancerScraper) (t : SwapTask) (e : Option String)
    (hlive : t.returned = false) :
    SwapTask.iterate scraper t (.err e) =
      ({ t with subscribed := false, returned := true },
        ⟨[], if scraper.run then [t.poolToSub] else []⟩) := by
  simp [SwapTask.iterate, hlive]

theorem SwapTask.iterate_log_resubscribe (scraper : BalancerScraper) (t : SwapTask)
    (vLog : LogSwap) (now : Int) :
    (SwapTask.iterate scraper t (.log vLog now)).2.resubscribe = [] := by
  simp only [SwapTask.iterate]
  split
  · rfl
  · split <;> rfl

theorem newPoolsTask_iterate_err (scraper : BalancerScraper) (t : NewPoolsTask)
    (e : Option String) (hlive : t.returned = false) :
    NewPoolsTask.iterate scraper t (.err e) =
      ({ t with subscribed := false, returned := true }, scraper,
        ⟨[], if scraper.run then ["NEW_POOLS"] else []⟩) := by
  simp [NewPoolsTask.iterate, hlive]

theorem NewPoolsTask.iterate_log (scraper : BalancerScraper) (t : NewPoolsTask)
    (pool : String) :
    (NewPoolsTask.iterate scraper t (.log pool)).2.2.resubscribe = [] ∧
    (NewPoolsTask.iterate scraper t (.log pool)).2.1.run = scraper.run := by
  simp only [NewPoolsTask.iterate]
  split
  · exact ⟨rfl, rfl⟩
  · split <;> exact ⟨rfl, rfl⟩

theorem count_sent_map_trade (msg : String) (l : List Trade) :
    List.count (Obs.sent msg) (l.map Obs.trade) = 0 := by
  rw [List.count_eq_zero]
  simp

theorem count_reopened_map_trade (sub : Subscription) (l : List Trade) :
    List.count (Obs.reopened sub) (l.map Obs.trade) = 0 := by
  rw [List.count_eq_zero]
  simp

theorem count_failed_map_trade (sub : Subscription) (l : List Trade) :
    List.count (Obs.failed sub) (l.map Obs.trade) = 0 := by
  rw [List.count_eq_zero]
  simp

theorem count_sent_map_opened (msg : String) (l : List String) :
    List.count (Obs.sent msg) (l.map Obs.opened) = 0 := by
  rw [List.count_eq_zero]
  simp

theorem count_reopened_map_opened (sub : Subscription) (l : List String) :
    List.count (Obs.reopened sub) (l.map Obs.opened) = 0 := by
  rw [List.count_eq_zero]
  simp

theorem count_failed_map_opened (sub : Subscription) (l : List String) :
    List.count (Obs.failed sub) (l.map Obs.opened) = 0 := by
  rw [List.count_eq_zero]
  simp

theorem dispatchTarget_eq_iff (a b : String) : dispatchTarget a = dispatchTarget b ↔ a = b := by
  simp only [dispatchTarget]
  constructor
  · intro h
    split at h <;> split at h
    · rename_i h1 h2
      rw [h1, h2]
    · cases h
    · cases h
    · exact Subscription.swaps.inj h
  · intro h
    rw [h]

/-- What a step observes and does to the messages on their way, under a set
running flag: the flag stays set unless the step clears it; every send follows
a failure of the subscription named by the message; and a message leaves the
channel exactly by a reopening of its subscription. -/
theorem Manager.step_balance (m : Manager) (a : ManagerAction) (hrun : m.scraper.run = true) :
    (a ≠ .clearRun → (m.step a).1.scraper.run = true) ∧
    (∀ msg, List.count (Obs.sent msg) (m.step a).2 =
      List.count (Obs.failed (.swaps msg)) (m.step a).2 +
        (if msg = "NEW_POOLS" then List.count (Obs.failed .newPools) (m.step a).2 else 0)) ∧
    (∀ msg, List.count (Obs.reopened (dispatchTarget msg)) (m.step a).2 +
        List.count msg (m.step a).1.inflight =
      List.count (Obs.sent msg) (m.step a).2 + List.count msg m.inflight) := by
  cases a with
  | swapEvent i ev =>
    simp only [Manager.step]
    cases hget : m.swapTasks.get? i with
    | none => simp [hrun]
    | some t =>
      cases hret : t.returned with
      | true => simp [hrun, hret]
      | false =>
        cases ev with
        | err e =>
          simp only [hret, Bool.false_eq_true, if_false, swapTask_iterate_err _ _ _ hret, hrun,
            if_true]
          refine ⟨fun _ => trivial, ?_, ?_⟩
          · intro msg
            simp [List.count_cons]
          · intro msg
            simp [List.count_cons, Manager.inflight, List.count_append]
            omega
        | log vLog now =>
          have hres := SwapTask.iterate_log_resubscribe m.scraper t vLog now
          simp only [hret, Bool.false_eq_true, if_false, hres]
          refine ⟨fun _ => hrun, ?_, ?_⟩
          · intro msg
            simp [count_sent_map_trade, count_failed_map_trade]
          · intro msg
            simp [count_sent_map_trade, count_reopened_map_trade, Manager.inflight]
  | poolEvent i ev =>
    simp only [Manager.step]
    cases hget : m.poolTasks.get? i with
    | none => simp [hrun]
    | some t =>
      cases hret : t.returned with
      | true => simp [hrun, hret]
      | false =>
        cases ev with
        | err e =>
          simp only [hret, Bool.false_eq_true, if_false, newPoolsTask_iterate_err _ _ _ hret,
            hrun, if_true]
          refine ⟨fun _ => trivial, ?_, ?_⟩
          · intro msg
            by_cases hmsg : msg = "NEW_POOLS"
            · simp [List.count_cons, hmsg]
            · have : ¬ ("NEW_POOLS" = msg) := fun h => hmsg h.symm
              simp [List.count_cons, hmsg, this]
          · intro msg
            simp [List.count_cons, Manager.inflight, List.count_append]
            omega
        | log pool =>
          obtain ⟨hres, hrun'⟩ := NewPoolsTask.iterate_log m.scraper t pool
          simp only [hret, Bool.false_eq_true, if_false, hres]
          refine ⟨fun _ => by rw [hrun', hrun], ?_, ?_⟩
          · intro msg
            simp [count_sent_map_opened, count_failed_map_opened]
          · intro msg
            simp [count_sent_map_opened, count_reopened_map_opened, Manager.inflight]
  | dispatcher =>
    simp only [Manager.step, Manager.dispatch]
    cases hd : m.dispatcher with
    | atGuard => simp [hrun, Manager.inflight, hd]
    | receiving =>
      cases hp : m.pending with
      | nil => simp [hrun, Manager.inflight, hd, hp]
      | cons pool rest =>
        simp [hrun, Manager.inflight, hd, hp, List.count_cons, List.count_append]
    | handling pool =>
      simp only [hrun, if_true]
      by_cases hpool : pool = "NEW_POOLS"
      · simp only [hpool, if_true]
        refine ⟨fun _ => hrun, fun msg => by simp, ?_⟩
        intro msg
        by_cases hmsg : msg = "NEW_POOLS"
        · subst hmsg
          subst hpool
          simp [Manager.inflight, hd, dispatchTarget, List.count_append]
          exact Nat.add_comm _ _
        · have : ¬ ("NEW_POOLS" = msg) := fun h => hmsg h.symm
          simp [Manager.inflight, hd, hpool, hmsg, this, dispatchTarget, List.count_append]
      · simp only [hpool, if_false]
        refine ⟨fun _ => hrun, fun msg => by simp, ?_⟩
        intro msg
        have htarget : (Subscription.swaps pool = dispatchTarget msg) ↔ pool = msg := by
          have := dispatchTarget_eq_iff pool msg
          simpa [dispatchTarget, hpool] using this
        by_cases hpm : pool = msg
        · have h1 : Subscription.swaps pool = dispatchTarget msg := htarget.mpr hpm
          rw [← h1]
          subst hpm
          simp [Manager.inflight, hd, List.count_append, List.count_cons]
          exact Nat.add_comm _ _
        · have h1 : ¬ (Subscription.swaps pool = dispatchTarget msg) := fun h => hpm (htarget.mp h)
          simp [Manager.inflight, hd, List.count_append, List.count_cons, h1, hpm]
    | exited => simp [hrun, Manager.inflight, hd]
  | clearRun =>
    simp [Manager.step, Manager.inflight]

theorem Manager.step_not_exited (m : Manager) (a : ManagerAction)
    (hrun : m.scraper.run = true) (hd : m.dispatcher ≠ .exited) :
    (m.step a).1.dispatcher ≠ .exited := by
  cases a with
  | swapEvent i ev =>
    simp only [Manager.step]
    split
    · exact hd
    · split <;> exact hd
  | poolEvent i ev =>
    simp only [Manager.step]
    split
    · exact hd
    · split <;> exact hd
  | dispatcher =>
    simp only [Manager.step, Manager.dispatch]
    split
    · simp [hrun]
    · split <;> simp_all
    · simp [hrun]
      split <;> simp
    · rename_i h
      exact absurd h hd
  | clearRun => exact hd

theorem Manager.run_append (as bs : List ManagerAction) (m : Manager) :
    m.run (as ++ bs) = (((m.run as).1.run bs).1, (m.run as).2 ++ ((m.run as).1.run bs).2) := by
  induction as generalizing m with
  | nil => simp [Manager.run]
  | cons a as ih =>
    have h := ih (m.step a).1
    simp only [List.cons_append, Manager.run, List.append_eq, h, List.append_assoc]

/-- The balance of failures, sends and reopenings over a run in which the
running flag stays set. -/
theorem Manager.run_balance (acts : List ManagerAction) (m : Manager)
    (hrun : m.scraper.run = true) (hd : m.dispatcher ≠ .exited)
    (hno : ManagerAction.clearRun ∉ acts) :
    (m.run acts).1.scraper.run = true ∧
    (m.run acts).1.dispatcher ≠ .exited ∧
    (∀ msg, List.count (Obs.sent msg) (m.run acts).2 =
      List.count (Obs.failed (.swaps msg)) (m.run acts).2 +
        (if msg = "NEW_POOLS" then List.count (Obs.failed .newPools) (m.run acts).2 else 0)) ∧
    (∀ msg, List.count (Obs.reopened (dispatchTarget msg)) (m.run acts).2 +
        List.count msg (m.run acts).1.inflight =
      List.count (Obs.sent msg) (m.run acts).2 + List.count msg m.inflight) := by
  induction acts generalizing m with
  | nil => simp [Manager.run, hrun, hd]
  | cons a as ih =>
    have hne : a ≠ .clearRun := fun h => hno (by simp [h])
    have hno' : ManagerAction.clearRun ∉ as := fun h => hno (List.mem_cons_of_mem _ h)
    obtain ⟨s1, s2, s3⟩ := Manager.step_balance m a hrun
    obtain ⟨r1, r2, r3, r4⟩ := ih (m.step a).1 (s1 hne) (Manager.step_not_exited m a hrun hd) hno'
    simp only [Manager.run]
    refine ⟨r1, r2, ?_, ?_⟩
    · intro msg
      have h1 := s2 msg
      have h2 := r3 msg
      simp only [List.count_append]
      split at h1
      · rename_i hmsg
        subst hmsg
        simp only [if_true] at h2 ⊢
        omega
      · rename_i hmsg
        simp only [hmsg, if_false] at h2 ⊢
        omega
    · intro msg
      have h1 := s3 msg
      have h2 := r4 msg
      simp only [List.count_append]
      omega

/-- A running dispatcher handles every message that is on its way. -/
theorem Manager.drain_inflight (n : Nat) (m : Manager) (hn : m.backlog = n)
    (hrun : m.scraper.run = true) (hd : m.dispatcher ≠ .exited) :
    (m.run (List.replicate n .dispatcher)).1.inflight = [] := by
  induction n generalizing m with
  | zero =>
    simp only [List.replicate, Manager.run, Manager.inflight]
    simp only [Manager.backlog] at hn
    have hp : m.pending = [] := List.length_eq_zero.mp (by omega)
    cases hdp : m.dispatcher with
    | atGuard => simp [hdp] at hn
    | receiving => simp [hp]
    | handling pool => simp [hdp] at hn
    | exited => exact absurd hdp hd
  | succ n ih =>
    simp only [List.replicate, Manager.run]
    apply ih
    · simp only [Manager.step, Manager.dispatch, Manager.backlog] at hn ⊢
      cases hdp : m.dispatcher with
      | atGuard =>
        simp only [hdp, hrun, if_true] at hn ⊢
        omega
      | receiving =>
        simp only [hdp] at hn ⊢
        cases hp : m.pending with
        | nil => simp [hp] at hn
        | cons pool rest =>
          simp only [hp, List.length_cons] at hn ⊢
          omega
      | handling pool =>
        simp only [hdp, hrun, if_true] at hn ⊢
        split <;> simp only <;> omega
      | exited => exact absurd hdp hd
    · exact (Manager.step_balance m .dispatcher hrun).1 (by simp)
    · exact Manager.step_not_exited m .dispatcher hrun hd

/-- With the running flag cleared no step sends on `resubscribe` or reopens a
subscription, and the flag stays cleared. -/
theorem Manager.step_quiet (m : Manager) (a : ManagerAction) (hrun : m.scraper.run = false) :
    (m.step a).1.scraper.run = false ∧
    ∀ o ∈ (m.step a).2, (∀ msg, o ≠ Obs.sent msg) ∧ (∀ sub, o ≠ Obs.reopened sub) := by
  cases a with
  | swapEvent i ev =>
    simp only [Manager.step]
    cases hget : m.swapTasks.get? i with
    | none => simp [hrun]
    | some t =>
      cases hret : t.returned with
      | true => simp [hrun, hret]
      | false =>
        cases ev with
        | err e =>
          simp [hret, swapTask_iterate_err _ _ _ hret, hrun]
        | log vLog now =>
          have hres := SwapTask.iterate_log_resubscribe m.scraper t vLog now
          simp [hret, hres, hrun]
  | poolEvent i ev =>
    simp only [Manager.step]
    cases hget : m.poolTasks.get? i with
    | none => simp [hrun]
    | some t =>
      cases hret : t.returned with
      | true => simp [hrun, hret]
      | false =>
        cases ev with
        | err e =>
          simp [hret, newPoolsTask_iterate_err _ _ _ hret, hrun]
        | log pool =>
          obtain ⟨hres, hrun'⟩ := NewPoolsTask.iterate_log m.scraper t pool
          simp [hret, hres, hrun', hrun]
  | dispatcher =>
    simp only [Manager.step, Manager.dispatch]
    cases hd : m.dispatcher with
    | atGuard => simp [hrun]
    | receiving =>
      cases hp : m.pending <;> simp [hrun]
    | handling pool => simp [hrun]
    | exited => simp [hrun]
  | clearRun => simp [Manager.step]

theorem Manager.run_quiet (acts : List ManagerAction) (m : Manager)
    (hrun : m.scraper.run = false) :
    ∀ o ∈ (m.run acts).2, (∀ msg, o ≠ Obs.sent msg) ∧ (∀ sub, o ≠ Obs.reopened sub) := by
  induction acts generalizing m with
  | nil => simp [Manager.run]
  | cons a as ih =>
    obtain ⟨h1, h2⟩ := Manager.step_quiet m a hrun
    intro o ho
    simp only [Manager.run, List.mem_append] at ho
    rcases ho with ho | ho
    · exact h2 o ho
    · exact ih (m.step a).1 h1 o ho

theorem Manager.dispatch_obs (m : Manager) :
    ∀ o ∈ m.dispatch.2, (∀ sub, o ≠ Obs.failed sub) ∧ (∀ msg, o ≠ Obs.sent msg) := by
  simp only [Manager.dispatch]
  split
  · simp
  · split <;> simp
  · split
    · split <;> simp
    · simp
  · simp

theorem Manager.drain_obs (n : Nat) (m : Manager) :
    ∀ o ∈ (m.run (List.replicate n .dispatcher)).2,
      (∀ sub, o ≠ Obs.failed sub) ∧ (∀ msg, o ≠ Obs.sent msg) := by
  induction n generalizing m with
  | zero => simp [Manager.run]
  | succ n ih =>
    intro o ho
    simp only [List.replicate, Manager.run, List.mem_append] at ho
    rcases ho with ho | ho
    · exact Manager.dispatch_obs m o ho
    · exact ih _ o ho

/-! ## Claims, continued: the resubscribe protocol -/

/-- C11: with the running flag set, an error received by a live swap task
makes it stop and send its pool address on `resubscribe`, once; an error
received by a live factory task makes it stop and send "NEW_POOLS", once; the
dispatcher receives the oldest waiting send and then opens exactly one
subscription, the factory subscription for "NEW_POOLS" and otherwise the swap
subscription of the pool named. Hence over every run of the manager in which
the flag stays set, for every pool address the sends equal the failures of
its swap subscriptions, reopenings and messages still on their way together
equal the failures, and once the dispatcher has worked off its backlog the
reopenings equal the failures; the factory reopenings equal the sends of
"NEW_POOLS". With the flag cleared, no step of any run sends on `resubscribe`
or reopens a subscription. -/
theorem resubscribe_protocol (scraper : BalancerScraper) (acts : List ManagerAction)
    (hrun : scraper.run = true) (hno : ManagerAction.clearRun ∉ acts) :
    (∀ (t : SwapTask) (e : Option String), t.returned = false →
      SwapTask.iterate scraper t (.err e) =
        ({ t with subscribed := false, returned := true }, ⟨[], [t.poolToSub]⟩)) ∧
    (∀ (t : NewPoolsTask) (e : Option String), t.returned = false →
      NewPoolsTask.iterate scraper t (.err e) =
        ({ t with subscribed := false, returned := true }, scraper, ⟨[], ["NEW_POOLS"]⟩)) ∧
    (∀ (m : Manager) (pool : String) (rest : List String),
      m.dispatcher = .receiving → m.pending = pool :: rest →
      m.dispatch = ({ m with pending := rest, dispatcher := .handling pool }, [])) ∧
    (∀ (m : Manager) (pool : String), m.scraper.run = true → m.dispatcher = .handling pool →
      (pool = "NEW_POOLS" →
        m.dispatch.2 = [Obs.reopened .newPools] ∧
        m.dispatch.1.poolTasks = m.poolTasks ++ [NewPoolsTask.start m.scraper] ∧
        m.dispatch.1.swapTasks = m.swapTasks) ∧
      (pool ≠ "NEW_POOLS" →
        m.dispatch.2 = [Obs.reopened (.swaps pool)] ∧
        m.dispatch.1.swapTasks = m.swapTasks ++ [SwapTask.start m.scraper pool] ∧
        m.dispatch.1.poolTasks = m.poolTasks)) ∧
    (∀ P : String, P ≠ "NEW_POOLS" →
      List.count (Obs.sent P) ((Manager.init scraper).run acts).2 =
        List.count (Obs.failed (.swaps P)) ((Manager.init scraper).run acts).2 ∧
      List.count (Obs.reopened (.swaps P)) ((Manager.init scraper).run acts).2 +
          List.count P ((Manager.init scraper).run acts).1.inflight =
        List.count (Obs.failed (.swaps P)) ((Manager.init scraper).run acts).2 ∧
      List.count (Obs.reopened (.swaps P))
          (((Manager.init scraper).run acts).2 ++ ((Manager.init scraper).run acts).1.drain.2) =
        List.count (Obs.failed (.swaps P)) ((Manager.init scraper).run acts).2) ∧
    ((Manager.init scraper).run acts).1.drain.1.inflight = [] ∧
    List.count (Obs.reopened .newPools)
        (((Manager.init scraper).run acts).2 ++ ((Manager.init scraper).run acts).1.drain.2) =
      List.count (Obs.sent "NEW_POOLS") ((Manager.init scraper).run acts).2 ∧
    List.count (Obs.sent "NEW_POOLS") ((Manager.init scraper).run acts).2 =
      List.count (Obs.failed .newPools) ((Manager.init scraper).run acts).2 +
        List.count (Obs.failed (.swaps "NEW_POOLS")) ((Manager.init scraper).run acts).2 ∧
    (∀ (m : Manager) (later : List ManagerAction), m.scraper.run = false →
      ∀ o ∈ (m.run later).2, (∀ msg, o ≠ Obs.sent msg) ∧ (∀ sub, o ≠ Obs.reopened sub)) := by
  have hinit_d : (Manager.init scraper).dispatcher ≠ .exited := by simp [Manager.init]
  have hinit_i : (Manager.init scraper).inflight = [] := by simp [Manager.init, Manager.inflight]
  obtain ⟨b1, b2, b3, b4⟩ := Manager.run_balance acts (Manager.init scraper) hrun hinit_d hno
  -- the run followed by the dispatcher working off its backlog
  have hno' : ManagerAction.clearRun ∉
      acts ++ List.replicate ((Manager.init scraper).run acts).1.backlog .dispatcher := by
    intro h
    rcases List.mem_append.mp h with h | h
    · exact hno h
    · have := List.eq_of_mem_replicate h
      cases this
  obtain ⟨_, _, _, d4⟩ := Manager.run_balance _ (Manager.init scraper) hrun hinit_d hno'
  rw [Manager.run_append] at d4
  have hdrain : ((Manager.init scraper).run acts).1.drain.1.inflight = [] :=
    Manager.drain_inflight _ _ rfl b1 b2
  have hdobs := Manager.drain_obs ((Manager.init scraper).run acts).1.backlog
    ((Manager.init scraper).run acts).1
  have hsent0 : ∀ msg, List.count (Obs.sent msg) ((Manager.init scraper).run acts).1.drain.2 = 0 := by
    intro msg
    rw [List.count_eq_zero]
    intro hmem
    exact (hdobs _ hmem).2 msg rfl
  have htotal : ∀ msg, List.count (Obs.reopened (dispatchTarget msg))
      (((Manager.init scraper).run acts).2 ++ ((Manager.init scraper).run acts).1.drain.2) =
      List.count (Obs.sent msg) ((Manager.init scraper).run acts).2 := by
    intro msg
    have h := d4 msg
    simp only [Manager.drain] at hdrain hsent0
    simp only [hdrain, hinit_i, List.count_nil, Nat.add_zero, List.count_append, hsent0] at h
    simp only [Manager.drain, List.count_append]
    exact h
  refine ⟨?_, ?_, ?_, ?_, ?_, hdrain, ?_, ?_, ?_⟩
  · intro t e hlive
    rw [swapTask_iterate_err _ _ _ hlive, hrun]
    rfl
  · intro t e hlive
    rw [newPoolsTask_iterate_err _ _ _ hlive, hrun]
    rfl
  · intro m pool rest hd hp
    simp [Manager.dispatch, hd, hp]
  · intro m pool hmrun hd
    constructor
    · intro hpool
      simp [Manager.dispatch, hd, hmrun, hpool]
    · intro hpool
      simp [Manager.dispatch, hd, hmrun, hpool]
  · intro P hP
    have hs := b3 P
    have hr := b4 P
    have ht := htotal P
    simp only [hP, if_false, Nat.add_zero] at hs
    simp only [dispatchTarget, hP, if_false, hinit_i, List.count_nil, Nat.add_zero] at hr ht
    exact ⟨hs, by rw [hr, hs], by rw [ht, hs]⟩
  · have ht := htotal "NEW_POOLS"
    simpa [dispatchTarget] using ht
  · have hs := b3 "NEW_POOLS"
    simp only [if_true] at hs
    omega
  · intro m later hmrun
    exact Manager.run_quiet later m hmrun

set_option maxRecDepth 100000 in
/-- C11 at the fourth end-to-end scenario: the subscription of the one pool
fails once; one message with its address is sent, the dispatcher reopens the
subscription once, and the swap of A for B delivered to the new task yields a
trade. -/
theorem resubscribe_protocol_witness :
    enginePool.run = true ∧ ManagerAction.clearRun ∉ traceFailureRecovery ∧
    List.count (Obs.failed (.swaps "0xPool"))
      ((Manager.init enginePool).run traceFailureRecovery).2 = 1 ∧
    List.count (Obs.sent "0xPool") ((Manager.init enginePool).run traceFailureRecovery).2 = 1 ∧
    List.count (Obs.reopened (.swaps "0xPool"))
      ((Manager.init enginePool).run traceFailureRecovery).2 = 1 ∧
    ((Manager.init enginePool).run traceFailureRecovery).1.swapTasks =
      [⟨"0xPool", false, true⟩, ⟨"0xPool", true, false⟩] ∧
    ((Manager.init enginePool).run traceFailureRecovery).2.length = 4 := by
  have h := resubscribe_protocol enginePool traceFailureRecovery (by decide) (by decide)
  have hP := h.2.2.2.2.1 "0xPool" (by decide)
  have hf : List.count (Obs.failed (.swaps "0xPool"))
      ((Manager.init enginePool).run traceFailureRecovery).2 = 1 := by decide
  have hi : List.count "0xPool" ((Manager.init enginePool).run traceFailureRecovery).1.inflight
      = 0 := by decide
  refine ⟨by decide, by decide, hf, by rw [hP.1, hf], ?_, by decide, by decide⟩
  have := hP.2.1
  rw [hi, hf] at this
  exact this

end Scrapers
